import Mathlib

/-!
Shallow embedding of `amfi.py` (AMFI NAV bulletin parser) and proofs about it.

The embedding translates the source functions `AMFIParser.to_integer`,
`AMFIParser.to_date`, `AMFIParser.to_record`, the line predicates
`is_blank_line` / `is_header_line` / `is_record_line`, `extract_mf_details`,
and the stateful generator `AMFIParser.parse` into pure Lean functions.
Python strings are modelled as `String` / `List Char`; Python `dict`s
(insertion ordered, update-in-place) as association lists; the Python
exceptions raised during tokenization as `Except String`.
-/

/-- ASCII decimal digit test, as used by Python `int()` on the digit part. -/
def isDigitC (c : Char) : Bool := 48 ≤ c.toNat && c.toNat ≤ 57

/-- Whitespace characters stripped by Python `str.strip()` / `int()` (ASCII part). -/
def isPySpace (c : Char) : Bool :=
  c.toNat = 32 || c.toNat = 9 || c.toNat = 10 || c.toNat = 13 || c.toNat = 11 || c.toNat = 12

/-- Python `str.strip()` on a character list: drop whitespace from both ends. -/
def pyStrip (cs : List Char) : List Char :=
  ((cs.dropWhile isPySpace).reverse.dropWhile isPySpace).reverse

/-- Numeric value of a digit string read left to right, base 10. -/
def digitsVal (cs : List Char) : Nat :=
  cs.foldl (fun a c => 10 * a + (c.toNat - 48)) 0

/-- After the first digit, Python `int()` accepts `(('_')? digit)*`:
single underscores are allowed only between digits. -/
def pyDigitTail : List Char → Bool
  | [] => true
  | c :: rest =>
    if c = '_' then
      match rest with
      | [] => false
      | d :: rest' => isDigitC d && pyDigitTail rest'
    else isDigitC c && pyDigitTail rest

/-- Python `int(s)` on a character list: strip whitespace, optional single
sign, then a digit string with optional single underscores between digits.
Returns `none` where Python raises `ValueError`. -/
def pyIntOfChars (cs : List Char) : Option Int :=
  match pyStrip cs with
  | [] => none
  | c :: rest =>
    if c = '+' || c = '-' then
      match rest with
      | [] => none
      | d :: rest' =>
        if isDigitC d && pyDigitTail rest' then
          let n : Int := (digitsVal ((d :: rest').filter (fun x => x ≠ '_')) : Nat)
          some (if c = '-' then -n else n)
        else none
    else
      if isDigitC c && pyDigitTail rest then
        some ((digitsVal ((c :: rest).filter (fun x => x ≠ '_')) : Nat) : Int)
      else none

/-- The string munging of `AMFIParser.to_integer` (amfi.py, lines 192-201):
strip commas, find the first decimal point, strip decimal points, and
right-pad with zeros (`"0" * zeroesToPad`, a no-op when `zeroesToPad` is
negative) so that four fractional digits are represented. -/
def mungePadded (val : String) : List Char :=
  let cs := val.toList.filter (fun c => c ≠ ',')
  let indexOfDecimal := cs.findIdx? (fun c => c = '.')
  let ds := cs.filter (fun c => c ≠ '.')
  let zeroesToPad : Int :=
    match indexOfDecimal with
    | none => 4
    | some i => 4 - (ds.length : Int) + (i : Int)
  if zeroesToPad ≠ 0 then ds ++ List.replicate zeroesToPad.toNat '0' else ds

/-- `AMFIParser.to_integer` (amfi.py, lines 186-207): munge and pad the
string, then parse it with `int()`. `ok (some n)` models a returned integer,
`ok none` the non-strict `None` result, `error` the strict-mode
`ValueError` (whose message names the munged string, as in the source). -/
def to_integer (val : String) (raise_exception : Bool) : Except String (Option Int) :=
  match pyIntOfChars (mungePadded val) with
  | some n => .ok (some n)
  | none =>
    if raise_exception then .error ("Cannot convert " ++ String.mk (mungePadded val) ++ " to long")
    else .ok none

/-- Calendar date, the result of `datetime.strptime(val, '%d-%b-%Y').date()`. -/
structure PyDate where
  year : Nat
  month : Nat
  day : Nat
deriving DecidableEq, Repr

/-- Lowercased three-letter month abbreviations recognised by `%b`. -/
def monthAbbrevs : List (List Char) :=
  ["jan".toList, "feb".toList, "mar".toList, "apr".toList, "may".toList, "jun".toList,
   "jul".toList, "aug".toList, "sep".toList, "oct".toList, "nov".toList, "dec".toList]

/-- Month number from its abbreviation, case-insensitively, as `%b` matches. -/
def monthFromAbbrev (cs : List Char) : Option Nat :=
  match (monthAbbrevs.findIdx? (fun m => m = cs.map Char.toLower)) with
  | some i => some (i + 1)
  | none => none

/-- Gregorian leap-year rule used by `datetime` to validate the day. -/
def isLeapYear (y : Nat) : Bool := y % 4 = 0 && (y % 100 ≠ 0 || y % 400 = 0)

/-- Number of days in a month, for `datetime`'s day-of-month validation. -/
def daysInMonth (m y : Nat) : Nat :=
  if m = 2 then (if isLeapYear y then 29 else 28)
  else if m = 4 || m = 6 || m = 9 || m = 11 then 30
  else 31

/-- Splits a character list on a separator character, Python `str.split(sep)`
semantics: `n` separators yield `n + 1` (possibly empty) pieces. -/
def splitOnChar (sep : Char) : List Char → List (List Char)
  | [] => [[]]
  | c :: rest =>
    match splitOnChar sep rest with
    | [] => if c = sep then [[], []] else [[c]]
    | h :: t => if c = sep then [] :: h :: t else (c :: h) :: t

/-- `AMFIParser.to_date` (amfi.py, lines 182-184): strip the value and parse
it with `strptime` format `'%d-%b-%Y'` — one or two day digits, a month
abbreviation, up to four year digits, with the day validated against the
month's length. `error` models the `ValueError` that `strptime` raises. -/
def to_date (val : String) : Except String PyDate :=
  let cs := pyStrip val.toList
  match splitOnChar '-' cs with
  | [d, m, y] =>
    if 1 ≤ d.length && d.length ≤ 2 && d.all isDigitC &&
       1 ≤ y.length && y.length ≤ 4 && y.all isDigitC then
      match monthFromAbbrev m with
      | some month =>
        let day := digitsVal d
        let year := digitsVal y
        if 1 ≤ day && day ≤ daysInMonth month year then
          .ok { year := year, month := month, day := day }
        else .error ("time data " ++ val ++ " does not match format")
      | none => .error ("time data " ++ val ++ " does not match format")
    else .error ("time data " ++ val ++ " does not match format")
  | _ => .error ("time data " ++ val ++ " does not match format")

/-- The `NavRecord` namedtuple (amfi.py, line 66), after `to_record`'s field
conversions: empty ISINs become `none`, the three monetary fields go through
the non-strict money decoder, the date through `to_date`. -/
structure NavRecord where
  code : String
  fund : String
  isin1 : Option String
  isin2 : Option String
  nav : Option Int
  repurchase_price : Option Int
  sale_price : Option Int
  date : PyDate
deriving DecidableEq, Repr

/-- The `MutualFund` namedtuple (amfi.py, line 67). -/
structure MutualFund where
  code : String
  amc_id : Option Nat
  category_id : Option Nat
  name : String
  isin_growth : Option String
  isin_dividend_payout : Option String
  isin_dividend_reinvestment : Option String
deriving DecidableEq, Repr

/-- The `Amc` namedtuple (amfi.py, line 68). -/
structure Amc where
  id : Nat
  name : String
deriving DecidableEq, Repr

/-- The `Category` namedtuple (amfi.py, line 69). -/
structure Category where
  id : Nat
  category : String
deriving DecidableEq, Repr

/-- Python `sub in s` substring containment on character lists. -/
def containsSub (needle : List Char) : List Char → Bool
  | [] => needle.isEmpty
  | c :: rest => needle.isPrefixOf (c :: rest) || containsSub needle rest

/-- `AMFIParser.is_blank_line` (amfi.py, lines 150-154). -/
def is_blank_line (line : String) : Bool := (pyStrip line.toList).isEmpty

/-- `AMFIParser.is_header_line` (amfi.py, lines 156-157). -/
def is_header_line (line : String) : Bool :=
  containsSub "Scheme Code;Scheme Name".toList line.toList

/-- `AMFIParser.is_record_line` (amfi.py, lines 159-164): a line with the
field separator that is not a header line. -/
def is_record_line (line : String) : Bool :=
  !is_header_line line && containsSub [';'] line.toList

/-- Whether the line contains the literal `'Schemes'`, the category test of
`AMFIParser.parse` (amfi.py, line 129). -/
def hasSchemes (line : String) : Bool := containsSub "Schemes".toList line.toList

/-- Line categories assigned by the branch chain of `AMFIParser.parse`. -/
inductive LineClass where
  | record
  | header
  | blank
  | category
  | amc
deriving DecidableEq, Repr

/-- The line classification implicit in `AMFIParser.parse`'s branch chain
(amfi.py, lines 118-137): record lines first (excluding headers), then
header, blank, category-announcement (`'Schemes' in line`), and the AMC
catch-all. -/
def classify (line : String) : LineClass :=
  if is_record_line line then .record
  else if is_header_line line then .header
  else if is_blank_line line then .blank
  else if hasSchemes line then .category
  else .amc

/-- Non-strict money decoding as `to_record` invokes it: `to_integer` with
the default `raise_exception=False`, which never raises. -/
def to_integer_core (val : String) : Option Int :=
  match to_integer val false with
  | .ok v => v
  | .error _ => none

/-- `AMFIParser.to_record` (amfi.py, lines 166-180): split the line on `';'`
into exactly eight fields, normalise empty ISINs to `None`, convert the three
monetary fields non-strictly and the date strictly. Any other field count
raises (`IndexError`/`TypeError`), modelled as `error`. -/
def to_record (line : String) : Except String NavRecord :=
  match splitOnChar ';' line.toList with
  | [t0, t1, t2, t3, t4, t5, t6, t7] =>
    match to_date (String.mk t7) with
    | .error e => .error e
    | .ok d =>
      .ok { code := String.mk t0
            fund := String.mk t1
            isin1 := if t2.isEmpty then none else some (String.mk t2)
            isin2 := if t3.isEmpty then none else some (String.mk t3)
            nav := to_integer_core (String.mk t4)
            repurchase_price := to_integer_core (String.mk t5)
            sale_price := to_integer_core (String.mk t6)
            date := d }
  | _ => .error "wrong number of fields"

/-- `AMFIParser.extract_mf_details` (amfi.py, lines 146-148): note that both
`isin_growth` and `isin_dividend_payout` are filled from `record.isin1`. -/
def extract_mf_details (record : NavRecord) (amc_id category_id : Option Nat) : MutualFund :=
  { code := record.code
    amc_id := amc_id
    category_id := category_id
    name := record.fund
    isin_growth := record.isin1
    isin_dividend_payout := record.isin1
    isin_dividend_reinvestment := record.isin2 }

/-- Association-list lookup with Python `dict` first-match semantics. -/
def dictLookup {α : Type} (m : List (String × α)) (k : String) : Option α :=
  match m with
  | [] => none
  | (k', v) :: rest => if k' = k then some v else dictLookup rest k

/-- Association-list update with Python `dict` semantics: an existing key is
updated in place, a new key is appended at the end. -/
def dictInsert {α : Type} (m : List (String × α)) (k : String) (v : α) : List (String × α) :=
  match m with
  | [] => [(k, v)]
  | (k', v') :: rest => if k' = k then (k, v) :: rest else (k', v') :: dictInsert rest k v

/-- The mutable state of one `AMFIParser` pass: the five instance fields set
in `__init__` (amfi.py, lines 107-112) plus the two loop-local context
variables of `parse` (lines 115-116). -/
structure ParserState where
  mutual_funds : List (String × MutualFund)
  amc_by_name : List (String × Amc)
  amc_id_seq : Nat
  category_by_name : List (String × Category)
  category_id_seq : Nat
  current_amc_id : Option Nat
  current_category_id : Option Nat
deriving DecidableEq, Repr

/-- The state of a freshly constructed `AMFIParser` at the top of `parse`. -/
def initState : ParserState :=
  { mutual_funds := []
    amc_by_name := []
    amc_id_seq := 0
    category_by_name := []
    category_id_seq := 0
    current_amc_id := none
    current_category_id := none }

/-- One iteration of the `for line in stream` loop of `AMFIParser.parse`
(amfi.py, lines 118-144), dispatched on the branch chain captured by
`classify`. Returns the new state and the optionally yielded record;
`error` models an exception raised while tokenizing a record line. -/
def parseStep (s : ParserState) (line : String) :
    Except String (ParserState × Option NavRecord) :=
  match classify line with
  | .record =>
    match to_record line with
    | .error e => .error e
    | .ok record =>
      let mf := extract_mf_details record s.current_amc_id s.current_category_id
      .ok ({ s with mutual_funds := dictInsert s.mutual_funds mf.code mf }, some record)
  | .header => .ok (s, none)
  | .blank => .ok (s, none)
  | .category =>
    let category := String.mk (pyStrip line.toList)
    match dictLookup s.category_by_name category with
    | some c => .ok ({ s with current_category_id := some c.id }, none)
    | none =>
      let newId := s.category_id_seq + 1
      .ok ({ s with
             category_id_seq := newId
             current_category_id := some newId
             category_by_name :=
               dictInsert s.category_by_name category { id := newId, category := category } },
           none)
  | .amc =>
    let amc := String.mk (pyStrip line.toList)
    match dictLookup s.amc_by_name amc with
    | some a => .ok ({ s with current_amc_id := some a.id }, none)
    | none =>
      let newId := s.amc_id_seq + 1
      .ok ({ s with
             amc_id_seq := newId
             current_amc_id := some newId
             amc_by_name := dictInsert s.amc_by_name amc { id := newId, name := amc } },
           none)

/-- Draining `AMFIParser.parse` over a list of lines: the final parser state
together with the full sequence of yielded `NavRecord`s, or the first
exception raised. -/
def parseLines (s : ParserState) : List String → Except String (ParserState × List NavRecord)
  | [] => .ok (s, [])
  | l :: ls =>
    match parseStep s l with
    | .error e => .error e
    | .ok (s', out) =>
      match parseLines s' ls with
      | .error e => .error e
      | .ok (s'', outs) => .ok (s'', out.toList ++ outs)

/-- Stripped text of the most recent AMC-announcement line of the list, per
the classification of `AMFIParser.parse`; `none` when no line of the list is
an AMC announcement. -/
def lastAmcName : List String → Option String
  | [] => none
  | l :: ls =>
    match lastAmcName ls with
    | some n => some n
    | none => if classify l = .amc then some (String.mk (pyStrip l.toList)) else none

/-- Stripped text of the most recent category-announcement line of the list;
`none` when no line of the list is a category announcement. -/
def lastCategoryName : List String → Option String
  | [] => none
  | l :: ls =>
    match lastCategoryName ls with
    | some n => some n
    | none => if classify l = .category then some (String.mk (pyStrip l.toList)) else none

/-- The id sequence `[1, 2, ..., n]` produced by a counter that starts at 1,
in allocation order. -/
def idRange : Nat → List Nat
  | 0 => []
  | n + 1 => idRange n ++ [n + 1]

/-- The structural invariant of the parser's deduplication state: the ids
stored in the AMC mapping are, in insertion order, exactly `1..amc_id_seq`;
the counter equals the mapping's size; every stored `Amc` carries its key as
its name; symmetrically for categories; and the fund mapping has no
duplicate codes. -/
def GoodState (s : ParserState) : Prop :=
  s.amc_by_name.map (fun p => p.2.id) = idRange s.amc_id_seq ∧
  s.amc_id_seq = s.amc_by_name.length ∧
  (∀ k a, dictLookup s.amc_by_name k = some a → a.name = k) ∧
  s.category_by_name.map (fun p => p.2.id) = idRange s.category_id_seq ∧
  s.category_id_seq = s.category_by_name.length ∧
  (∀ k c, dictLookup s.category_by_name k = some c → c.category = k) ∧
  (s.mutual_funds.map Prod.fst).Nodup

/-- Whether a character list starts with an ASCII digit. -/
def headIsDigit : List Char → Bool
  | [] => false
  | c :: _ => isDigitC c

/-- Recogniser for the `(,\d{3})*` part of the money pattern, anchored against
what follows: consumes comma-separated groups of exactly three digits and
returns the group digits (commas removed) together with the unconsumed rest,
which must not begin with a digit (else the anchored pattern cannot match). -/
def parseCommaGroups : List Char → Option (List Char × List Char)
  | [] => some ([], [])
  | c :: rest =>
    if c = ',' then
      match rest with
      | d1 :: d2 :: d3 :: rest' =>
        if isDigitC d1 && isDigitC d2 && isDigitC d3 && !headIsDigit rest' then
          match parseCommaGroups rest' with
          | some (more, fin) => some (d1 :: d2 :: d3 :: more, fin)
          | none => none
        else none
      | _ => none
    else some ([], c :: rest)

/-- Matcher for the spec's money pattern `\d\x7b1,3\x7d(,\d\x7b3\x7d)*(\.\d+)?`:
on a match, returns the integer-part digits (commas removed) and the
fractional digits (empty when there is no decimal point); `none` when the
string does not match the anchored pattern. -/
def moneyShape (s : String) : Option (List Char × List Char) :=
  let cs := s.toList
  let d1 := cs.takeWhile isDigitC
  let r1 := cs.dropWhile isDigitC
  if 1 ≤ d1.length ∧ d1.length ≤ 3 then
    match parseCommaGroups r1 with
    | none => none
    | some (dmore, r2) =>
      match r2 with
      | [] => some (d1 ++ dmore, [])
      | c :: rest =>
        if c = '.' then
          let f := rest.takeWhile isDigitC
          if 1 ≤ f.length ∧ rest.dropWhile isDigitC = [] then some (d1 ++ dmore, f)
          else none
        else none
  else none

/-- A "valid decimal number" in the sense of the spec's money contract: after
removing thousands separators, a nonempty digit string with at most one
decimal point and, if one is present, a nonempty digit string after it. -/
def isValidDecimalB (s : String) : Bool :=
  let cs := s.toList.filter (fun c => c ≠ ',')
  match splitOnChar '.' cs with
  | [d] => !d.isEmpty && d.all isDigitC
  | [d, f] => !d.isEmpty && !f.isEmpty && d.all isDigitC && f.all isDigitC
  | _ => false

/-- Characters from which Python `int()` can possibly assemble a number, plus
the separators that `to_integer` strips: anything else makes the final
`int()` call raise. -/
def isMoneyLegalChar (c : Char) : Bool :=
  isDigitC c || c = ',' || c = '.' || c = '+' || c = '-' || c = '_' || isPySpace c

/-- Sample AMC-announcement input line. -/
def lineA : String := "ABC Mutual Fund\n"

/-- Sample category-announcement input line. -/
def lineC : String := "Open Ended Schemes\n"

/-- Sample data-record input line (the spec's worked example). -/
def lineR : String := "101;Fund A;;;10.00;10.05;9.95;01-Jan-2024\n"

/-- A second data-record line with the same scheme code as `lineR` but
different descriptive fields. -/
def lineR2 : String := "101;Fund B;;;11.00;11.05;10.95;02-Jan-2024\n"

/-- The `NavRecord` tokenized from `lineR`. -/
def recR : NavRecord :=
  { code := "101", fund := "Fund A", isin1 := none, isin2 := none, nav := some 100000,
    repurchase_price := some 100500, sale_price := some 99500, date := ⟨2024, 1, 1⟩ }

/-- The `NavRecord` tokenized from `lineR2`. -/
def recR2 : NavRecord :=
  { code := "101", fund := "Fund B", isin1 := none, isin2 := none, nav := some 110000,
    repurchase_price := some 110500, sale_price := some 109500, date := ⟨2024, 1, 2⟩ }

/-- The `MutualFund` built from `recR` with no AMC/category context. -/
def mfR : MutualFund :=
  { code := "101", amc_id := none, category_id := none, name := "Fund A",
    isin_growth := none, isin_dividend_payout := none, isin_dividend_reinvestment := none }

/-- The `MutualFund` built from `recR` under AMC 1 and category 1. -/
def mfRA : MutualFund :=
  { code := "101", amc_id := some 1, category_id := some 1, name := "Fund A",
    isin_growth := none, isin_dividend_payout := none, isin_dividend_reinvestment := none }

/-- The `MutualFund` built from `recR2` under AMC 1 and category 1. -/
def mfRB : MutualFund :=
  { code := "101", amc_id := some 1, category_id := some 1, name := "Fund B",
    isin_growth := none, isin_dividend_payout := none, isin_dividend_reinvestment := none }

/-- Parser state after consuming `lineA` from a fresh parser. -/
def stateA : ParserState :=
  { mutual_funds := [], amc_by_name := [("ABC Mutual Fund", ⟨1, "ABC Mutual Fund"⟩)],
    amc_id_seq := 1, category_by_name := [], category_id_seq := 0,
    current_amc_id := some 1, current_category_id := none }

/-- Parser state after consuming `lineA` then `lineC` from a fresh parser. -/
def stateAC : ParserState :=
  { mutual_funds := [], amc_by_name := [("ABC Mutual Fund", ⟨1, "ABC Mutual Fund"⟩)],
    amc_id_seq := 1, category_by_name := [("Open Ended Schemes", ⟨1, "Open Ended Schemes"⟩)],
    category_id_seq := 1, current_amc_id := some 1, current_category_id := some 1 }

/-- Parser state after consuming just `lineR` from a fresh parser. -/
def stateR : ParserState :=
  { mutual_funds := [("101", mfR)], amc_by_name := [], amc_id_seq := 0,
    category_by_name := [], category_id_seq := 0,
    current_amc_id := none, current_category_id := none }

/-- Parser state after consuming `lineA`, `lineC`, `lineR` from a fresh parser. -/
def stateACR : ParserState :=
  { mutual_funds := [("101", mfRA)], amc_by_name := [("ABC Mutual Fund", ⟨1, "ABC Mutual Fund"⟩)],
    amc_id_seq := 1, category_by_name := [("Open Ended Schemes", ⟨1, "Open Ended Schemes"⟩)],
    category_id_seq := 1, current_amc_id := some 1, current_category_id := some 1 }

/-- Parser state after consuming `lineA`, `lineR`, `lineC`, `lineR2`. -/
def stateFin : ParserState :=
  { mutual_funds := [("101", mfRB)], amc_by_name := [("ABC Mutual Fund", ⟨1, "ABC Mutual Fund"⟩)],
    amc_id_seq := 1, category_by_name := [("Open Ended Schemes", ⟨1, "Open Ended Schemes"⟩)],
    category_id_seq := 1, current_amc_id := some 1, current_category_id := some 1 }

theorem dictLookup_insert {α : Type} (m : List (String × α)) (k k' : String) (v : α) :
    dictLookup (dictInsert m k v) k' = if k = k' then some v else dictLookup m k' := by
  induction m with
  | nil => simp [dictInsert, dictLookup]
  | cons p rest ih =>
    obtain ⟨a, b⟩ := p
    by_cases hak : a = k
    · subst hak
      simp only [dictInsert, if_pos rfl, dictLookup]
      split_ifs <;> simp_all [dictLookup]
    · simp only [dictInsert, if_neg hak, dictLookup, ih]
      by_cases hak' : a = k'
      · subst hak'
        have : k ≠ a := fun h => hak h.symm
        simp [this]
      · simp [hak']

theorem dictLookup_eq_none_iff {α : Type} (m : List (String × α)) (k : String) :
    dictLookup m k = none ↔ k ∉ m.map Prod.fst := by
  induction m with
  | nil => simp [dictLookup]
  | cons p rest ih =>
    obtain ⟨a, b⟩ := p
    by_cases hak : a = k
    · subst hak
      simp [dictLookup]
    · simp [dictLookup, hak, ih, Ne.symm hak]

theorem dictInsert_fresh {α : Type} (m : List (String × α)) (k : String) (v : α)
    (h : dictLookup m k = none) : dictInsert m k v = m ++ [(k, v)] := by
  induction m with
  | nil => simp [dictInsert]
  | cons p rest ih =>
    obtain ⟨a, b⟩ := p
    simp only [dictLookup] at h
    by_cases hak : a = k
    · simp [hak] at h
    · simp only [dictInsert, if_neg hak, List.cons_append, ih (by simpa [hak] using h)]

theorem parseStep_record_eq (s : ParserState) (line : String) (r : NavRecord)
    (hc : classify line = .record) (hr : to_record line = .ok r) :
    parseStep s line = .ok
      ({ s with mutual_funds := dictInsert s.mutual_funds r.code (extract_mf_details r s.current_amc_id s.current_category_id) },
       some r) := by
  simp only [parseStep, hc]
  rw [hr]
  rfl

theorem parseStep_header_eq (s : ParserState) (line : String)
    (hc : classify line = .header) : parseStep s line = .ok (s, none) := by
  simp [parseStep, hc]

theorem parseStep_blank_eq (s : ParserState) (line : String)
    (hc : classify line = .blank) : parseStep s line = .ok (s, none) := by
  simp [parseStep, hc]

theorem parseStep_category_found (s : ParserState) (line : String) (c : Category)
    (hc : classify line = .category)
    (hl : dictLookup s.category_by_name (String.mk (pyStrip line.toList)) = some c) :
    parseStep s line = .ok ({ s with current_category_id := some c.id }, none) := by
  simp only [parseStep, hc]
  rw [hl]

theorem parseStep_category_new (s : ParserState) (line : String)
    (hc : classify line = .category)
    (hl : dictLookup s.category_by_name (String.mk (pyStrip line.toList)) = none) :
    parseStep s line = .ok
      ({ s with
          category_id_seq := s.category_id_seq + 1,
          current_category_id := some (s.category_id_seq + 1),
          category_by_name := dictInsert s.category_by_name (String.mk (pyStrip line.toList)) { id := s.category_id_seq + 1, category := String.mk (pyStrip line.toList) } },
       none) := by
  simp only [parseStep, hc]
  rw [hl]

theorem parseStep_amc_found (s : ParserState) (line : String) (a : Amc)
    (hc : classify line = .amc)
    (hl : dictLookup s.amc_by_name (String.mk (pyStrip line.toList)) = some a) :
    parseStep s line = .ok ({ s with current_amc_id := some a.id }, none) := by
  simp only [parseStep, hc]
  rw [hl]

theorem parseStep_amc_new (s : ParserState) (line : String)
    (hc : classify line = .amc)
    (hl : dictLookup s.amc_by_name (String.mk (pyStrip line.toList)) = none) :
    parseStep s line = .ok
      ({ s with
          amc_id_seq := s.amc_id_seq + 1,
          current_amc_id := some (s.amc_id_seq + 1),
          amc_by_name := dictInsert s.amc_by_name (String.mk (pyStrip line.toList)) { id := s.amc_id_seq + 1, name := String.mk (pyStrip line.toList) } },
       none) := by
  simp only [parseStep, hc]
  rw [hl]

theorem parseStep_record_inv (s : ParserState) (line : String) (s' : ParserState)
    (out : Option NavRecord) (hc : classify line = .record)
    (h : parseStep s line = .ok (s', out)) :
    ∃ r, to_record line = .ok r ∧ out = some r ∧
      s' = { s with mutual_funds := dictInsert s.mutual_funds r.code (extract_mf_details r s.current_amc_id s.current_category_id) } := by
  cases hr : to_record line with
  | error e => simp [parseStep, hc, hr] at h
  | ok r =>
    rw [parseStep_record_eq s line r hc hr] at h
    simp only [Except.ok.injEq, Prod.mk.injEq] at h
    exact ⟨r, rfl, h.2.symm, h.1.symm⟩

theorem parseStep_amc_inv (s : ParserState) (line : String) (s' : ParserState)
    (out : Option NavRecord) (hc : classify line = .amc)
    (h : parseStep s line = .ok (s', out)) :
    out = none ∧ s'.mutual_funds = s.mutual_funds ∧
    s'.category_by_name = s.category_by_name ∧ s'.category_id_seq = s.category_id_seq ∧
    s'.current_category_id = s.current_category_id ∧
    ∃ a, dictLookup s'.amc_by_name (String.mk (pyStrip line.toList)) = some a ∧
      s'.current_amc_id = some a.id ∧
      (∀ k v, dictLookup s.amc_by_name k = some v → dictLookup s'.amc_by_name k = some v) := by
  cases hl : dictLookup s.amc_by_name (String.mk (pyStrip line.toList)) with
  | some a =>
    rw [parseStep_amc_found s line a hc hl] at h
    simp only [Except.ok.injEq, Prod.mk.injEq] at h
    obtain ⟨h1, h2⟩ := h
    subst h1
    exact ⟨h2.symm, rfl, rfl, rfl, rfl, a, hl, rfl, fun k v hkv => hkv⟩
  | none =>
    rw [parseStep_amc_new s line hc hl] at h
    simp only [Except.ok.injEq, Prod.mk.injEq] at h
    obtain ⟨h1, h2⟩ := h
    subst h1
    refine ⟨h2.symm, rfl, rfl, rfl, rfl,
      { id := s.amc_id_seq + 1, name := String.mk (pyStrip line.toList) }, ?_, rfl, ?_⟩
    · rw [dictLookup_insert]
      simp
    · intro k v hkv
      rw [dictLookup_insert]
      split_ifs with hk
      · rw [← hk, hl] at hkv
        cases hkv
      · exact hkv

theorem parseStep_category_inv (s : ParserState) (line : String) (s' : ParserState)
    (out : Option NavRecord) (hc : classify line = .category)
    (h : parseStep s line = .ok (s', out)) :
    out = none ∧ s'.mutual_funds = s.mutual_funds ∧
    s'.amc_by_name = s.amc_by_name ∧ s'.amc_id_seq = s.amc_id_seq ∧
    s'.current_amc_id = s.current_amc_id ∧
    ∃ c, dictLookup s'.category_by_name (String.mk (pyStrip line.toList)) = some c ∧
      s'.current_category_id = some c.id ∧
      (∀ k v, dictLookup s.category_by_name k = some v →
        dictLookup s'.category_by_name k = some v) := by
  cases hl : dictLookup s.category_by_name (String.mk (pyStrip line.toList)) with
  | some c =>
    rw [parseStep_category_found s line c hc hl] at h
    simp only [Except.ok.injEq, Prod.mk.injEq] at h
    obtain ⟨h1, h2⟩ := h
    subst h1
    exact ⟨h2.symm, rfl, rfl, rfl, rfl, c, hl, rfl, fun k v hkv => hkv⟩
  | none =>
    rw [parseStep_category_new s line hc hl] at h
    simp only [Except.ok.injEq, Prod.mk.injEq] at h
    obtain ⟨h1, h2⟩ := h
    subst h1
    refine ⟨h2.symm, rfl, rfl, rfl, rfl,
      { id := s.category_id_seq + 1, category := String.mk (pyStrip line.toList) }, ?_, rfl, ?_⟩
    · rw [dictLookup_insert]
      simp
    · intro k v hkv
      rw [dictLookup_insert]
      split_ifs with hk
      · rw [← hk, hl] at hkv
        cases hkv
      · exact hkv

theorem parseLines_append (s : ParserState) (xs ys : List String) :
    parseLines s (xs ++ ys) =
      match parseLines s xs with
      | .error e => .error e
      | .ok (s₁, o₁) =>
        match parseLines s₁ ys with
        | .error e => .error e
        | .ok (s₂, o₂) => .ok (s₂, o₁ ++ o₂) := by
  induction xs generalizing s with
  | nil =>
    cases h : parseLines s ys with
    | error e => simp [parseLines, h]
    | ok p =>
      obtain ⟨s₂, o₂⟩ := p
      simp [parseLines, h]
  | cons l ls ih =>
    simp only [List.cons_append, parseLines, List.append_eq]
    cases hs : parseStep s l with
    | error e => rfl
    | ok p =>
      obtain ⟨s', out⟩ := p
      dsimp only
      rw [ih s']
      cases h1 : parseLines s' ls with
      | error e => rfl
      | ok q =>
        obtain ⟨s₁, o₁⟩ := q
        dsimp only
        cases h2 : parseLines s₁ ys with
        | error e => rfl
        | ok r =>
          obtain ⟨s₂, o₂⟩ := r
          dsimp only
          rw [List.append_assoc]

theorem parseStep_header_blank_inv (s : ParserState) (line : String) (s' : ParserState)
    (out : Option NavRecord)
    (hc : classify line = .header ∨ classify line = .blank)
    (h : parseStep s line = .ok (s', out)) : s' = s ∧ out = none := by
  rcases hc with hc | hc
  · rw [parseStep_header_eq s line hc] at h
    simp only [Except.ok.injEq, Prod.mk.injEq] at h
    exact ⟨h.1.symm, h.2.symm⟩
  · rw [parseStep_blank_eq s line hc] at h
    simp only [Except.ok.injEq, Prod.mk.injEq] at h
    exact ⟨h.1.symm, h.2.symm⟩

theorem parseStep_amc_bindings (s : ParserState) (line : String) (s' : ParserState)
    (out : Option NavRecord) (h : parseStep s line = .ok (s', out)) :
    ∀ k v, dictLookup s.amc_by_name k = some v → dictLookup s'.amc_by_name k = some v := by
  intro k v hkv
  cases hc : classify line with
  | record =>
    obtain ⟨r, _, _, rfl⟩ := parseStep_record_inv s line s' out hc h
    exact hkv
  | header =>
    obtain ⟨rfl, _⟩ := parseStep_header_blank_inv s line s' out (Or.inl hc) h
    exact hkv
  | blank =>
    obtain ⟨rfl, _⟩ := parseStep_header_blank_inv s line s' out (Or.inr hc) h
    exact hkv
  | category =>
    obtain ⟨_, _, ham, _, _, _⟩ := parseStep_category_inv s line s' out hc h
    rw [ham]
    exact hkv
  | amc =>
    obtain ⟨_, _, _, _, _, _, _, _, hmono⟩ := parseStep_amc_inv s line s' out hc h
    exact hmono k v hkv

theorem parseStep_category_bindings (s : ParserState) (line : String) (s' : ParserState)
    (out : Option NavRecord) (h : parseStep s line = .ok (s', out)) :
    ∀ k v, dictLookup s.category_by_name k = some v →
      dictLookup s'.category_by_name k = some v := by
  intro k v hkv
  cases hc : classify line with
  | record =>
    obtain ⟨r, _, _, rfl⟩ := parseStep_record_inv s line s' out hc h
    exact hkv
  | header =>
    obtain ⟨rfl, _⟩ := parseStep_header_blank_inv s line s' out (Or.inl hc) h
    exact hkv
  | blank =>
    obtain ⟨rfl, _⟩ := parseStep_header_blank_inv s line s' out (Or.inr hc) h
    exact hkv
  | category =>
    obtain ⟨_, _, _, _, _, _, _, _, hmono⟩ := parseStep_category_inv s line s' out hc h
    exact hmono k v hkv
  | amc =>
    obtain ⟨_, _, hcm, _, _, _⟩ := parseStep_amc_inv s line s' out hc h
    rw [hcm]
    exact hkv

theorem parseLines_amc_bindings (ls : List String) :
    ∀ (s s' : ParserState) (o : List NavRecord), parseLines s ls = .ok (s', o) →
      ∀ k v, dictLookup s.amc_by_name k = some v → dictLookup s'.amc_by_name k = some v := by
  induction ls with
  | nil =>
    intro s s' o h k v hkv
    simp only [parseLines, Except.ok.injEq, Prod.mk.injEq] at h
    rw [← h.1]
    exact hkv
  | cons l rest ih =>
    intro s s' o h k v hkv
    simp only [parseLines] at h
    cases hs : parseStep s l with
    | error e => rw [hs] at h; cases h
    | ok p =>
      obtain ⟨s₁, out⟩ := p
      rw [hs] at h
      dsimp only at h
      cases hr : parseLines s₁ rest with
      | error e => rw [hr] at h; cases h
      | ok q =>
        obtain ⟨s₂, outs⟩ := q
        rw [hr] at h
        simp only [Except.ok.injEq, Prod.mk.injEq] at h
        rw [← h.1]
        exact ih s₁ s₂ outs hr k v (parseStep_amc_bindings s l s₁ out hs k v hkv)

theorem parseLines_category_bindings (ls : List String) :
    ∀ (s s' : ParserState) (o : List NavRecord), parseLines s ls = .ok (s', o) →
      ∀ k v, dictLookup s.category_by_name k = some v →
        dictLookup s'.category_by_name k = some v := by
  induction ls with
  | nil =>
    intro s s' o h k v hkv
    simp only [parseLines, Except.ok.injEq, Prod.mk.injEq] at h
    rw [← h.1]
    exact hkv
  | cons l rest ih =>
    intro s s' o h k v hkv
    simp only [parseLines] at h
    cases hs : parseStep s l with
    | error e => rw [hs] at h; cases h
    | ok p =>
      obtain ⟨s₁, out⟩ := p
      rw [hs] at h
      dsimp only at h
      cases hr : parseLines s₁ rest with
      | error e => rw [hr] at h; cases h
      | ok q =>
        obtain ⟨s₂, outs⟩ := q
        rw [hr] at h
        simp only [Except.ok.injEq, Prod.mk.injEq] at h
        rw [← h.1]
        exact ih s₁ s₂ outs hr k v (parseStep_category_bindings s l s₁ out hs k v hkv)

theorem parseStep_cur_amc_eq (s : ParserState) (line : String) (s' : ParserState)
    (out : Option NavRecord) (hc : classify line ≠ .amc)
    (h : parseStep s line = .ok (s', out)) : s'.current_amc_id = s.current_amc_id := by
  cases hcl : classify line with
  | record =>
    obtain ⟨r, _, _, rfl⟩ := parseStep_record_inv s line s' out hcl h
    rfl
  | header =>
    obtain ⟨rfl, _⟩ := parseStep_header_blank_inv s line s' out (Or.inl hcl) h
    rfl
  | blank =>
    obtain ⟨rfl, _⟩ := parseStep_header_blank_inv s line s' out (Or.inr hcl) h
    rfl
  | category =>
    obtain ⟨_, _, _, _, hcur, _⟩ := parseStep_category_inv s line s' out hcl h
    exact hcur
  | amc => exact absurd hcl hc

theorem parseStep_cur_category_eq (s : ParserState) (line : String) (s' : ParserState)
    (out : Option NavRecord) (hc : classify line ≠ .category)
    (h : parseStep s line = .ok (s', out)) : s'.current_category_id = s.current_category_id := by
  cases hcl : classify line with
  | record =>
    obtain ⟨r, _, _, rfl⟩ := parseStep_record_inv s line s' out hcl h
    rfl
  | header =>
    obtain ⟨rfl, _⟩ := parseStep_header_blank_inv s line s' out (Or.inl hcl) h
    rfl
  | blank =>
    obtain ⟨rfl, _⟩ := parseStep_header_blank_inv s line s' out (Or.inr hcl) h
    rfl
  | category => exact absurd hcl hc
  | amc =>
    obtain ⟨_, _, _, _, hcur, _⟩ := parseStep_amc_inv s line s' out hcl h
    exact hcur

theorem parseLines_cur_amc (ls : List String) :
    ∀ (s s' : ParserState) (o : List NavRecord), parseLines s ls = .ok (s', o) →
      s'.current_amc_id =
        match lastAmcName ls with
        | none => s.current_amc_id
        | some n => (dictLookup s'.amc_by_name n).map (fun a => a.id) := by
  induction ls with
  | nil =>
    intro s s' o h
    simp only [parseLines, Except.ok.injEq, Prod.mk.injEq] at h
    rw [← h.1]
    rfl
  | cons l rest ih =>
    intro s s' o h
    simp only [parseLines] at h
    cases hs : parseStep s l with
    | error e => rw [hs] at h; cases h
    | ok p =>
      obtain ⟨s₁, out⟩ := p
      rw [hs] at h
      dsimp only at h
      cases hr : parseLines s₁ rest with
      | error e => rw [hr] at h; cases h
      | ok q =>
        obtain ⟨s₂, outs⟩ := q
        rw [hr] at h
        simp only [Except.ok.injEq, Prod.mk.injEq] at h
        rw [← h.1]
        have IH := ih s₁ s₂ outs hr
        simp only [lastAmcName]
        cases hl : lastAmcName rest with
        | some n =>
          rw [hl] at IH
          dsimp only at IH
          exact IH
        | none =>
          rw [hl] at IH
          dsimp only at IH
          by_cases hc : classify l = .amc
          · rw [if_pos hc]
            dsimp only
            obtain ⟨_, _, _, _, _, a, ha, hcur, _⟩ := parseStep_amc_inv s l s₁ out hc hs
            have ha2 : dictLookup s₂.amc_by_name (String.mk (pyStrip l.toList)) = some a :=
              parseLines_amc_bindings rest s₁ s₂ outs hr _ a ha
            rw [IH, hcur, ha2]
            rfl
          · rw [if_neg hc]
            dsimp only
            rw [IH]
            exact parseStep_cur_amc_eq s l s₁ out hc hs

theorem parseLines_cur_category (ls : List String) :
    ∀ (s s' : ParserState) (o : List NavRecord), parseLines s ls = .ok (s', o) →
      s'.current_category_id =
        match lastCategoryName ls with
        | none => s.current_category_id
        | some n => (dictLookup s'.category_by_name n).map (fun c => c.id) := by
  induction ls with
  | nil =>
    intro s s' o h
    simp only [parseLines, Except.ok.injEq, Prod.mk.injEq] at h
    rw [← h.1]
    rfl
  | cons l rest ih =>
    intro s s' o h
    simp only [parseLines] at h
    cases hs : parseStep s l with
    | error e => rw [hs] at h; cases h
    | ok p =>
      obtain ⟨s₁, out⟩ := p
      rw [hs] at h
      dsimp only at h
      cases hr : parseLines s₁ rest with
      | error e => rw [hr] at h; cases h
      | ok q =>
        obtain ⟨s₂, outs⟩ := q
        rw [hr] at h
        simp only [Except.ok.injEq, Prod.mk.injEq] at h
        rw [← h.1]
        have IH := ih s₁ s₂ outs hr
        simp only [lastCategoryName]
        cases hl : lastCategoryName rest with
        | some n =>
          rw [hl] at IH
          dsimp only at IH
          exact IH
        | none =>
          rw [hl] at IH
          dsimp only at IH
          by_cases hc : classify l = .category
          · rw [if_pos hc]
            dsimp only
            obtain ⟨_, _, _, _, _, c, hcat, hcur, _⟩ := parseStep_category_inv s l s₁ out hc hs
            have hc2 : dictLookup s₂.category_by_name (String.mk (pyStrip l.toList)) = some c :=
              parseLines_category_bindings rest s₁ s₂ outs hr _ c hcat
            rw [IH, hcur, hc2]
            rfl
          · rw [if_neg hc]
            dsimp only
            rw [IH]
            exact parseStep_cur_category_eq s l s₁ out hc hs

theorem dictInsert_keys_of_found {α : Type} (m : List (String × α)) (k : String) (v w : α)
    (h : dictLookup m k = some w) : (dictInsert m k v).map Prod.fst = m.map Prod.fst := by
  induction m with
  | nil => simp [dictLookup] at h
  | cons p rest ih =>
    obtain ⟨a, b⟩ := p
    simp only [dictLookup] at h
    by_cases hak : a = k
    · subst hak
      simp [dictInsert]
    · simp only [if_neg hak] at h
      simp [dictInsert, hak, ih h]

theorem goodState_initState : GoodState initState := by
  refine ⟨rfl, rfl, ?_, rfl, rfl, ?_, ?_⟩ <;> simp [initState, dictLookup]

theorem parseStep_goodState (s : ParserState) (line : String) (s' : ParserState)
    (out : Option NavRecord) (h : parseStep s line = .ok (s', out)) (hg : GoodState s) :
    GoodState s' := by
  obtain ⟨g1, g2, g3, g4, g5, g6, g7⟩ := hg
  cases hc : classify line with
  | record =>
    obtain ⟨r, _, _, rfl⟩ := parseStep_record_inv s line s' out hc h
    refine ⟨g1, g2, g3, g4, g5, g6, ?_⟩
    show ((dictInsert s.mutual_funds r.code _).map Prod.fst).Nodup
    cases hmf : dictLookup s.mutual_funds r.code with
    | some w => rw [dictInsert_keys_of_found _ _ _ w hmf]; exact g7
    | none =>
      rw [dictInsert_fresh _ _ _ hmf, List.map_append]
      simp only [List.nodup_append, List.map_cons, List.map_nil]
      refine ⟨g7, List.nodup_singleton _, ?_⟩
      intro x hx hx1
      simp only [List.mem_singleton] at hx1
      subst hx1
      exact ((dictLookup_eq_none_iff s.mutual_funds r.code).mp hmf) hx
  | header =>
    obtain ⟨rfl, _⟩ := parseStep_header_blank_inv s line s' out (Or.inl hc) h
    exact ⟨g1, g2, g3, g4, g5, g6, g7⟩
  | blank =>
    obtain ⟨rfl, _⟩ := parseStep_header_blank_inv s line s' out (Or.inr hc) h
    exact ⟨g1, g2, g3, g4, g5, g6, g7⟩
  | category =>
    cases hl : dictLookup s.category_by_name (String.mk (pyStrip line.toList)) with
    | some c =>
      rw [parseStep_category_found s line c hc hl] at h
      simp only [Except.ok.injEq, Prod.mk.injEq] at h
      rw [← h.1]
      exact ⟨g1, g2, g3, g4, g5, g6, g7⟩
    | none =>
      rw [parseStep_category_new s line hc hl] at h
      simp only [Except.ok.injEq, Prod.mk.injEq] at h
      rw [← h.1]
      refine ⟨g1, g2, g3, ?_, ?_, ?_, g7⟩
      · show (dictInsert s.category_by_name _ _).map _ = idRange (s.category_id_seq + 1)
        rw [dictInsert_fresh _ _ _ hl, List.map_append, g4]
        rfl
      · show s.category_id_seq + 1 = (dictInsert s.category_by_name _ _).length
        rw [dictInsert_fresh _ _ _ hl, List.length_append, g5]
        rfl
      · show ∀ k c, dictLookup (dictInsert s.category_by_name _ _) k = some c → c.category = k
        intro k c hkc
        rw [dictLookup_insert] at hkc
        split_ifs at hkc with hk
        · cases hkc
          exact hk
        · exact g6 k c hkc
  | amc =>
    cases hl : dictLookup s.amc_by_name (String.mk (pyStrip line.toList)) with
    | some a =>
      rw [parseStep_amc_found s line a hc hl] at h
      simp only [Except.ok.injEq, Prod.mk.injEq] at h
      rw [← h.1]
      exact ⟨g1, g2, g3, g4, g5, g6, g7⟩
    | none =>
      rw [parseStep_amc_new s line hc hl] at h
      simp only [Except.ok.injEq, Prod.mk.injEq] at h
      rw [← h.1]
      refine ⟨?_, ?_, ?_, g4, g5, g6, g7⟩
      · show (dictInsert s.amc_by_name _ _).map _ = idRange (s.amc_id_seq + 1)
        rw [dictInsert_fresh _ _ _ hl, List.map_append, g1]
        rfl
      · show s.amc_id_seq + 1 = (dictInsert s.amc_by_name _ _).length
        rw [dictInsert_fresh _ _ _ hl, List.length_append, g2]
        rfl
      · show ∀ k a, dictLookup (dictInsert s.amc_by_name _ _) k = some a → a.name = k
        intro k a hka
        rw [dictLookup_insert] at hka
        split_ifs at hka with hk
        · cases hka
          exact hk
        · exact g3 k a hka

theorem parseLines_goodState (ls : List String) :
    ∀ (s s' : ParserState) (o : List NavRecord), GoodState s →
      parseLines s ls = .ok (s', o) → GoodState s' := by
  induction ls with
  | nil =>
    intro s s' o hg h
    simp only [parseLines, Except.ok.injEq, Prod.mk.injEq] at h
    rw [← h.1]
    exact hg
  | cons l rest ih =>
    intro s s' o hg h
    simp only [parseLines] at h
    cases hs : parseStep s l with
    | error e => rw [hs] at h; cases h
    | ok p =>
      obtain ⟨s₁, out⟩ := p
      rw [hs] at h
      dsimp only at h
      cases hr : parseLines s₁ rest with
      | error e => rw [hr] at h; cases h
      | ok q =>
        obtain ⟨s₂, outs⟩ := q
        rw [hr] at h
        simp only [Except.ok.injEq, Prod.mk.injEq] at h
        rw [← h.1]
        exact ih s₁ s₂ outs (parseStep_goodState s l s₁ out hs hg) hr

theorem parseLines_no_record (ls : List String) :
    ∀ s : ParserState, (∀ l ∈ ls, classify l ≠ .record) →
      ∃ s' : ParserState, parseLines s ls = .ok (s', []) ∧
        s'.mutual_funds = s.mutual_funds ∧
        ((∀ l ∈ ls, classify l ≠ .amc) → s'.amc_by_name = s.amc_by_name) ∧
        ((∀ l ∈ ls, classify l ≠ .category) → s'.category_by_name = s.category_by_name) := by
  induction ls with
  | nil =>
    intro s _
    exact ⟨s, rfl, rfl, fun _ => rfl, fun _ => rfl⟩
  | cons l rest ih =>
    intro s hnr
    have hstep : ∃ s₁ : ParserState, parseStep s l = .ok (s₁, none) ∧
        s₁.mutual_funds = s.mutual_funds ∧
        ((classify l ≠ .amc) → s₁.amc_by_name = s.amc_by_name) ∧
        ((classify l ≠ .category) → s₁.category_by_name = s.category_by_name) := by
      cases hc : classify l with
      | record => exact absurd hc (hnr l (List.mem_cons_self l rest))
      | header =>
        exact ⟨s, parseStep_header_eq s l hc, rfl, fun _ => rfl, fun _ => rfl⟩
      | blank =>
        exact ⟨s, parseStep_blank_eq s l hc, rfl, fun _ => rfl, fun _ => rfl⟩
      | category =>
        cases hl : dictLookup s.category_by_name (String.mk (pyStrip l.toList)) with
        | some c =>
          refine ⟨_, parseStep_category_found s l c hc hl, rfl, fun _ => rfl, fun hcc => ?_⟩
          exact absurd rfl hcc
        | none =>
          refine ⟨_, parseStep_category_new s l hc hl, rfl, fun _ => rfl, fun hcc => ?_⟩
          exact absurd rfl hcc
      | amc =>
        cases hl : dictLookup s.amc_by_name (String.mk (pyStrip l.toList)) with
        | some a =>
          refine ⟨_, parseStep_amc_found s l a hc hl, rfl, fun haa => ?_, fun _ => rfl⟩
          exact absurd rfl haa
        | none =>
          refine ⟨_, parseStep_amc_new s l hc hl, rfl, fun haa => ?_, fun _ => rfl⟩
          exact absurd rfl haa
    obtain ⟨s₁, hs₁, hmf₁, ham₁, hcat₁⟩ := hstep
    obtain ⟨s', hrec, hmf, ham, hcat⟩ :=
      ih s₁ (fun x hx => hnr x (List.mem_cons_of_mem l hx))
    refine ⟨s', ?_, ?_, ?_, ?_⟩
    · simp only [parseLines, hs₁, hrec]
      rfl
    · rw [hmf, hmf₁]
    · intro hnone
      rw [ham (fun x hx => hnone x (List.mem_cons_of_mem l hx)),
        ham₁ (hnone l (List.mem_cons_self l rest))]
    · intro hnone
      rw [hcat (fun x hx => hnone x (List.mem_cons_of_mem l hx)),
        hcat₁ (hnone l (List.mem_cons_self l rest))]

theorem parseLines_append_inv (s : ParserState) (xs ys : List String) (s' : ParserState)
    (o : List NavRecord) (h : parseLines s (xs ++ ys) = .ok (s', o)) :
    ∃ s₁ o₁ o₂, parseLines s xs = .ok (s₁, o₁) ∧ parseLines s₁ ys = .ok (s', o₂) ∧
      o = o₁ ++ o₂ := by
  rw [parseLines_append] at h
  cases hp : parseLines s xs with
  | error e => rw [hp] at h; cases h
  | ok p =>
    obtain ⟨s₁, o₁⟩ := p
    rw [hp] at h
    dsimp only at h
    cases hq : parseLines s₁ ys with
    | error e => rw [hq] at h; cases h
    | ok q =>
      obtain ⟨s₂, o₂⟩ := q
      rw [hq] at h
      dsimp only at h
      simp only [Except.ok.injEq, Prod.mk.injEq] at h
      obtain ⟨h1, h2⟩ := h
      subst h1
      exact ⟨s₁, o₁, o₂, rfl, hq, h2.symm⟩

theorem parseLines_singleton (s : ParserState) (x : String) :
    parseLines s [x] =
      match parseStep s x with
      | .error e => .error e
      | .ok (s', out) => .ok (s', out.toList) := by
  cases hs : parseStep s x with
  | error e => simp [parseLines, hs]
  | ok p =>
    obtain ⟨s', out⟩ := p
    simp [parseLines, hs]

theorem parseLines_snoc (s : ParserState) (xs : List String) (x : String) (s' : ParserState)
    (o : List NavRecord) (h : parseLines s (xs ++ [x]) = .ok (s', o)) :
    ∃ s₁ o₁ out, parseLines s xs = .ok (s₁, o₁) ∧ parseStep s₁ x = .ok (s', out) ∧
      o = o₁ ++ out.toList := by
  obtain ⟨s₁, o₁, o₂, hp, hq, ho⟩ := parseLines_append_inv s xs [x] s' o h
  rw [parseLines_singleton] at hq
  cases hs : parseStep s₁ x with
  | error e => rw [hs] at hq; cases hq
  | ok p =>
    obtain ⟨s₂, out⟩ := p
    rw [hs] at hq
    dsimp only at hq
    simp only [Except.ok.injEq, Prod.mk.injEq] at hq
    obtain ⟨h1, h2⟩ := hq
    subst h1
    refine ⟨s₁, o₁, out, hp, hs, ?_⟩
    rw [ho, h2]

theorem parseStep_amc_ok (s : ParserState) (line : String) (hc : classify line = .amc) :
    ∃ s', parseStep s line = .ok (s', none) := by
  cases hl : dictLookup s.amc_by_name (String.mk (pyStrip line.toList)) with
  | some a => exact ⟨_, parseStep_amc_found s line a hc hl⟩
  | none => exact ⟨_, parseStep_amc_new s line hc hl⟩

theorem parseStep_category_ok (s : ParserState) (line : String)
    (hc : classify line = .category) : ∃ s', parseStep s line = .ok (s', none) := by
  cases hl : dictLookup s.category_by_name (String.mk (pyStrip line.toList)) with
  | some c => exact ⟨_, parseStep_category_found s line c hc hl⟩
  | none => exact ⟨_, parseStep_category_new s line hc hl⟩

theorem idRange_mem (n i : Nat) : i ∈ idRange n ↔ 1 ≤ i ∧ i ≤ n := by
  induction n with
  | zero =>
    simp only [idRange, List.not_mem_nil, false_iff]
    omega
  | succ m ih =>
    simp only [idRange, List.mem_append, List.mem_singleton, ih]
    omega

theorem idRange_nodup (n : Nat) : (idRange n).Nodup := by
  induction n with
  | zero => simp [idRange]
  | succ m ih =>
    refine List.Nodup.append ih (List.nodup_singleton _) ?_
    intro a ha hb
    rw [List.mem_singleton] at hb
    subst hb
    have := (idRange_mem m (m + 1)).mp ha
    omega

/-- C9: a line containing the literal header marker `Scheme Code;Scheme Name`
is classified `HeaderLine` and never `DataRecord`: `is_record_line` defers to
`is_header_line`, so header detection takes precedence over the field
separator the header line also contains. -/
theorem header_precedes_record (line : String) (h : is_header_line line = true) :
    classify line = .header ∧ classify line ≠ .record ∧ is_record_line line = false := by
  have hrec : is_record_line line = false := by
    simp [is_record_line, h]
  refine ⟨?_, ?_, hrec⟩
  · simp [classify, hrec, h]
  · simp [classify, hrec, h]

/-- C9 witness: the actual AMFI header row is a header, not a data record,
despite containing `';'`. -/
theorem header_precedes_record_witness :
    is_header_line "Scheme Code;Scheme Name;ISIN Div Payout/ ISIN Growth;ISIN Div Reinvestment;Net Asset Value;Repurchase Price;Sale Price;Date" = true ∧
    (classify "Scheme Code;Scheme Name;ISIN Div Payout/ ISIN Growth;ISIN Div Reinvestment;Net Asset Value;Repurchase Price;Sale Price;Date" = .header ∧
     classify "Scheme Code;Scheme Name;ISIN Div Payout/ ISIN Growth;ISIN Div Reinvestment;Net Asset Value;Repurchase Price;Sale Price;Date" ≠ .record ∧
     is_record_line "Scheme Code;Scheme Name;ISIN Div Payout/ ISIN Growth;ISIN Div Reinvestment;Net Asset Value;Repurchase Price;Sale Price;Date" = false) :=
  ⟨by decide, header_precedes_record _ (by decide)⟩

/-- C4: for every data record processed by one parser step, the stored
`MutualFund` snapshot has `isin_dividend_payout` equal to the record's
`isin1` (the same source field as `isin_growth`), and
`isin_dividend_reinvestment` equal to the record's `isin2`, mirroring
`extract_mf_details`. -/
theorem mf_isin_payout_copies_isin1 (s : ParserState) (line : String) (r : NavRecord)
    (s' : ParserState) (out : Option NavRecord)
    (hc : classify line = .record) (hr : to_record line = .ok r)
    (h : parseStep s line = .ok (s', out)) :
    out = some r ∧
    (dictLookup s'.mutual_funds r.code).map
        (fun mf => (mf.isin_dividend_payout, mf.isin_growth, mf.isin_dividend_reinvestment)) =
      some (r.isin1, r.isin1, r.isin2) := by
  obtain ⟨r', hr', hout, rfl⟩ := parseStep_record_inv s line s' out hc h
  rw [hr] at hr'
  cases hr'
  refine ⟨hout, ?_⟩
  show (dictLookup (dictInsert s.mutual_funds r.code _) r.code).map _ = _
  rw [dictLookup_insert]
  simp [extract_mf_details]

/-- C4 witness: processing the sample data line on a fresh parser stores a
snapshot whose dividend-payout ISIN duplicates `isin1`. -/
theorem mf_isin_payout_copies_isin1_witness :
    (some recR : Option NavRecord) = some recR ∧
    (dictLookup stateR.mutual_funds recR.code).map
        (fun mf => (mf.isin_dividend_payout, mf.isin_growth, mf.isin_dividend_reinvestment)) =
      some (recR.isin1, recR.isin1, recR.isin2) :=
  mf_isin_payout_copies_isin1 initState lineR recR stateR (some recR) (by decide) rfl rfl

/-- C5: the `MutualFund` built for a data-record line carries the ids of the
most recent AMC-announcement and category-announcement lines preceding it in
stream order (looked up by their stripped text in the final mappings, where
ids are stable), and a null id when no such announcement precedes it. -/
theorem mf_context_most_recent (pre : List String) (dl : String) (r : NavRecord)
    (s : ParserState) (recs : List NavRecord)
    (hc : classify dl = .record) (hr : to_record dl = .ok r)
    (h : parseLines initState (pre ++ [dl]) = .ok (s, recs)) :
    (dictLookup s.mutual_funds r.code).map (fun mf => mf.amc_id) =
      some ((lastAmcName pre).bind (fun n => (dictLookup s.amc_by_name n).map (fun a => a.id))) ∧
    (dictLookup s.mutual_funds r.code).map (fun mf => mf.category_id) =
      some ((lastCategoryName pre).bind
        (fun n => (dictLookup s.category_by_name n).map (fun c => c.id))) ∧
    (lastAmcName pre = none →
      (dictLookup s.mutual_funds r.code).map (fun mf => mf.amc_id) = some none) ∧
    (lastCategoryName pre = none →
      (dictLookup s.mutual_funds r.code).map (fun mf => mf.category_id) = some none) := by
  obtain ⟨s₁, o₁, out, hp, hstep, ho⟩ := parseLines_snoc initState pre dl s recs h
  obtain ⟨r', hr', hout, rfl⟩ := parseStep_record_inv s₁ dl s out hc hstep
  rw [hr] at hr'
  cases hr'
  have hcur := parseLines_cur_amc pre initState s₁ o₁ hp
  have hcat := parseLines_cur_category pre initState s₁ o₁ hp
  have hamc : s₁.current_amc_id =
      (lastAmcName pre).bind (fun n => (dictLookup s₁.amc_by_name n).map (fun a => a.id)) := by
    rw [hcur]
    cases lastAmcName pre <;> rfl
  have hcat' : s₁.current_category_id =
      (lastCategoryName pre).bind
        (fun n => (dictLookup s₁.category_by_name n).map (fun c => c.id)) := by
    rw [hcat]
    cases lastCategoryName pre <;> rfl
  have hlook : dictLookup (dictInsert s₁.mutual_funds r.code
      (extract_mf_details r s₁.current_amc_id s₁.current_category_id)) r.code =
      some (extract_mf_details r s₁.current_amc_id s₁.current_category_id) := by
    rw [dictLookup_insert]
    simp
  refine ⟨?_, ?_, ?_, ?_⟩
  · show (dictLookup (dictInsert s₁.mutual_funds r.code _) r.code).map _ = _
    rw [hlook]
    simp only [Option.map_some']
    show some s₁.current_amc_id = _
    rw [hamc]
  · show (dictLookup (dictInsert s₁.mutual_funds r.code _) r.code).map _ = _
    rw [hlook]
    simp only [Option.map_some']
    show some s₁.current_category_id = _
    rw [hcat']
  · intro h0
    show (dictLookup (dictInsert s₁.mutual_funds r.code _) r.code).map _ = _
    rw [hlook]
    simp only [Option.map_some']
    show some s₁.current_amc_id = _
    rw [hamc, h0]
    rfl
  · intro h0
    show (dictLookup (dictInsert s₁.mutual_funds r.code _) r.code).map _ = _
    rw [hlook]
    simp only [Option.map_some']
    show some s₁.current_category_id = _
    rw [hcat', h0]
    rfl

/-- C5 witness: the spec's worked example — AMC line, category line, then a
data line — yields a fund whose foreign keys reference those announcements. -/
theorem mf_context_most_recent_witness :
    (dictLookup stateACR.mutual_funds recR.code).map (fun mf => mf.amc_id) =
      some ((lastAmcName [lineA, lineC]).bind
        (fun n => (dictLookup stateACR.amc_by_name n).map (fun a => a.id))) ∧
    (dictLookup stateACR.mutual_funds recR.code).map (fun mf => mf.category_id) =
      some ((lastCategoryName [lineA, lineC]).bind
        (fun n => (dictLookup stateACR.category_by_name n).map (fun c => c.id))) ∧
    (lastAmcName [lineA, lineC] = none →
      (dictLookup stateACR.mutual_funds recR.code).map (fun mf => mf.amc_id) = some none) ∧
    (lastCategoryName [lineA, lineC] = none →
      (dictLookup stateACR.mutual_funds recR.code).map (fun mf => mf.category_id) = some none) :=
  mf_context_most_recent [lineA, lineC] lineR recR stateACR [recR] (by decide) rfl rfl

/-- C6: two identical AMC-announcement lines at different stream positions
resolve to the same `Amc` id — the second occurrence changes neither the
mapping nor the sequence counter and restores the current-AMC context of the
first occurrence — and symmetrically for categories; ids are allocated in
insertion order as the contiguous counter values `1..seq`, scoped to the
parser state threaded from `initState`. -/
theorem amc_dedup_idempotent :
    (∀ (pre mid : List String) (l : String) (s₀ s₁ s₂ : ParserState)
        (o₀ o₁ o₂ : List NavRecord),
      classify l = .amc →
      parseLines initState (pre ++ [l]) = .ok (s₀, o₀) →
      parseLines initState ((pre ++ [l]) ++ mid) = .ok (s₁, o₁) →
      parseLines initState (((pre ++ [l]) ++ mid) ++ [l]) = .ok (s₂, o₂) →
      s₂.amc_by_name = s₁.amc_by_name ∧ s₂.amc_id_seq = s₁.amc_id_seq ∧
        s₂.current_amc_id = s₀.current_amc_id) ∧
    (∀ (pre mid : List String) (l : String) (s₀ s₁ s₂ : ParserState)
        (o₀ o₁ o₂ : List NavRecord),
      classify l = .category →
      parseLines initState (pre ++ [l]) = .ok (s₀, o₀) →
      parseLines initState ((pre ++ [l]) ++ mid) = .ok (s₁, o₁) →
      parseLines initState (((pre ++ [l]) ++ mid) ++ [l]) = .ok (s₂, o₂) →
      s₂.category_by_name = s₁.category_by_name ∧ s₂.category_id_seq = s₁.category_id_seq ∧
        s₂.current_category_id = s₀.current_category_id) ∧
    (∀ (lines : List String) (s : ParserState) (recs : List NavRecord),
      parseLines initState lines = .ok (s, recs) →
      s.amc_by_name.map (fun p => p.2.id) = idRange s.amc_id_seq ∧
      s.category_by_name.map (fun p => p.2.id) = idRange s.category_id_seq ∧
      s.amc_id_seq = s.amc_by_name.length ∧ s.category_id_seq = s.category_by_name.length) := by
  refine ⟨?_, ?_, ?_⟩
  · intro pre mid l s₀ s₁ s₂ o₀ o₁ o₂ hc h0 h1 h2
    obtain ⟨sp, op, out0, hpre, hst0, _⟩ := parseLines_snoc initState pre l s₀ o₀ h0
    obtain ⟨_, _, _, _, _, a, ha, hcur0, _⟩ := parseStep_amc_inv sp l s₀ out0 hc hst0
    obtain ⟨sA, oA, oB, hA, hmid, _⟩ :=
      parseLines_append_inv initState (pre ++ [l]) mid s₁ o₁ h1
    rw [h0] at hA
    have hsA : sA = s₀ := by
      simp only [Except.ok.injEq, Prod.mk.injEq] at hA
      exact hA.1.symm
    rw [hsA] at hmid
    have ha1 : dictLookup s₁.amc_by_name (String.mk (pyStrip l.toList)) = some a :=
      parseLines_amc_bindings mid s₀ s₁ oB hmid _ a ha
    obtain ⟨sB, oC, outC, hB, hstep2, _⟩ :=
      parseLines_snoc initState ((pre ++ [l]) ++ mid) l s₂ o₂ h2
    rw [h1] at hB
    have hsB : sB = s₁ := by
      simp only [Except.ok.injEq, Prod.mk.injEq] at hB
      exact hB.1.symm
    rw [hsB] at hstep2
    rw [parseStep_amc_found s₁ l a hc ha1] at hstep2
    simp only [Except.ok.injEq, Prod.mk.injEq] at hstep2
    rw [← hstep2.1]
    exact ⟨rfl, rfl, by rw [hcur0]⟩
  · intro pre mid l s₀ s₁ s₂ o₀ o₁ o₂ hc h0 h1 h2
    obtain ⟨sp, op, out0, hpre, hst0, _⟩ := parseLines_snoc initState pre l s₀ o₀ h0
    obtain ⟨_, _, _, _, _, c, hcc, hcur0, _⟩ := parseStep_category_inv sp l s₀ out0 hc hst0
    obtain ⟨sA, oA, oB, hA, hmid, _⟩ :=
      parseLines_append_inv initState (pre ++ [l]) mid s₁ o₁ h1
    rw [h0] at hA
    have hsA : sA = s₀ := by
      simp only [Except.ok.injEq, Prod.mk.injEq] at hA
      exact hA.1.symm
    rw [hsA] at hmid
    have hc1 : dictLookup s₁.category_by_name (String.mk (pyStrip l.toList)) = some c :=
      parseLines_category_bindings mid s₀ s₁ oB hmid _ c hcc
    obtain ⟨sB, oC, outC, hB, hstep2, _⟩ :=
      parseLines_snoc initState ((pre ++ [l]) ++ mid) l s₂ o₂ h2
    rw [h1] at hB
    have hsB : sB = s₁ := by
      simp only [Except.ok.injEq, Prod.mk.injEq] at hB
      exact hB.1.symm
    rw [hsB] at hstep2
    rw [parseStep_category_found s₁ l c hc hc1] at hstep2
    simp only [Except.ok.injEq, Prod.mk.injEq] at hstep2
    rw [← hstep2.1]
    exact ⟨rfl, rfl, by rw [hcur0]⟩
  · intro lines s recs h
    have hg := parseLines_goodState lines initState s recs goodState_initState h
    exact ⟨hg.1, hg.2.2.2.1, hg.2.1, hg.2.2.2.2.1⟩

/-- C6 witness: `lineA` occurring before and after a category line resolves
to AMC id 1 both times, with no second allocation; the id sequences of the
resulting state are exactly the counter values starting at 1. -/
theorem amc_dedup_idempotent_witness :
    (stateAC.amc_by_name = stateAC.amc_by_name ∧ stateAC.amc_id_seq = stateAC.amc_id_seq ∧
      stateAC.current_amc_id = stateA.current_amc_id) ∧
    (stateAC.amc_by_name.map (fun p => p.2.id) = idRange stateAC.amc_id_seq ∧
      stateAC.category_by_name.map (fun p => p.2.id) = idRange stateAC.category_id_seq ∧
      stateAC.amc_id_seq = stateAC.amc_by_name.length ∧
      stateAC.category_id_seq = stateAC.category_by_name.length) :=
  ⟨amc_dedup_idempotent.1 [] [lineC] lineA stateA stateAC stateAC [] [] [] (by decide)
      rfl rfl rfl,
   amc_dedup_idempotent.2.2 [lineA, lineC] stateAC [] rfl⟩

/-- C7: when two data-record lines with the same scheme code occur in one
pass, the final fund mapping holds exactly the snapshot built from the later
line (last write wins, and codes stay duplicate-free), while the emitted
record sequence contains the `NavRecord` of both lines. -/
theorem last_write_wins (pre mid : List String) (l₁ l₂ : String) (r₁ r₂ : NavRecord)
    (s : ParserState) (recs : List NavRecord)
    (hc₁ : classify l₁ = .record) (hc₂ : classify l₂ = .record)
    (hr₁ : to_record l₁ = .ok r₁) (hr₂ : to_record l₂ = .ok r₂)
    (hcode : r₁.code = r₂.code) (hdiff : r₁.fund ≠ r₂.fund)
    (h : parseLines initState (((pre ++ [l₁]) ++ mid) ++ [l₂]) = .ok (s, recs)) :
    dictLookup s.mutual_funds r₂.code =
      some (extract_mf_details r₂ s.current_amc_id s.current_category_id) ∧
    r₁ ∈ recs ∧ r₂ ∈ recs ∧ (s.mutual_funds.map Prod.fst).Nodup := by
  have hnodup :=
    (parseLines_goodState (((pre ++ [l₁]) ++ mid) ++ [l₂]) initState s recs
      goodState_initState h).2.2.2.2.2.2
  obtain ⟨sm, om, out₂, hm, hstep₂, ho⟩ :=
    parseLines_snoc initState ((pre ++ [l₁]) ++ mid) l₂ s recs h
  obtain ⟨r₂', hr₂', hout₂, rfl⟩ := parseStep_record_inv sm l₂ s out₂ hc₂ hstep₂
  rw [hr₂] at hr₂'
  cases hr₂'
  obtain ⟨sx, ox, oy, hx, hmid, hom⟩ :=
    parseLines_append_inv initState (pre ++ [l₁]) mid sm om hm
  obtain ⟨sp, op, out₁, hp, hstep₁, hox⟩ := parseLines_snoc initState pre l₁ sx ox hx
  obtain ⟨r₁', hr₁', hout₁, rfl⟩ := parseStep_record_inv sp l₁ sx out₁ hc₁ hstep₁
  rw [hr₁] at hr₁'
  cases hr₁'
  refine ⟨?_, ?_, ?_, hnodup⟩
  · show dictLookup (dictInsert sm.mutual_funds r₂.code _) r₂.code = _
    rw [dictLookup_insert]
    simp
  · rw [ho, hom, hox, hout₁, hout₂]
    simp
  · rw [ho, hout₂]
    simp

/-- C7 witness: the stream `lineA`, `lineR`, `lineC`, `lineR2` keeps only the
later snapshot for code 101 while emitting both records. -/
theorem last_write_wins_witness :
    dictLookup stateFin.mutual_funds recR2.code =
      some (extract_mf_details recR2 stateFin.current_amc_id stateFin.current_category_id) ∧
    recR ∈ [recR, recR2] ∧ recR2 ∈ [recR, recR2] ∧
    (stateFin.mutual_funds.map Prod.fst).Nodup :=
  last_write_wins [lineA] [lineC] lineR lineR2 recR recR2 stateFin [recR, recR2]
    (by decide) (by decide) rfl rfl rfl (by decide) rfl

/-- C8 counterexample: a stream with zero data-record lines need not leave
the AMC mapping empty — a single AMC-announcement line is not a data record,
parses without error to an empty record sequence, yet populates the AMC
mapping. -/
theorem zero_data_lines_counterexample :
    classify lineA ≠ LineClass.record ∧
    parseLines initState [lineA] = .ok (stateA, []) ∧
    stateA.amc_by_name ≠ [] :=
  ⟨by decide, rfl, by decide⟩

/-- C8 (amended): a stream with zero data-record lines parses without error
to an empty `NavRecord` sequence and an empty fund mapping; the AMC and
category mappings are moreover empty when the stream also contains no AMC-
resp. category-announcement lines (otherwise they hold the announced
names). -/
theorem zero_data_lines_amended :
    (∀ lines : List String, (∀ l ∈ lines, classify l ≠ .record) →
      ∀ e : String, parseLines initState lines ≠ .error e) ∧
    (∀ (lines : List String) (s : ParserState) (recs : List NavRecord),
      (∀ l ∈ lines, classify l ≠ .record) →
      parseLines initState lines = .ok (s, recs) →
      recs = [] ∧ s.mutual_funds = [] ∧
      ((∀ l ∈ lines, classify l ≠ .amc) → s.amc_by_name = []) ∧
      ((∀ l ∈ lines, classify l ≠ .category) → s.category_by_name = [])) := by
  constructor
  · intro lines hnr e hcontra
    obtain ⟨s', h', _⟩ := parseLines_no_record lines initState hnr
    rw [h'] at hcontra
    cases hcontra
  · intro lines s recs hnr h
    obtain ⟨s', h', hmf, ham, hcat⟩ := parseLines_no_record lines initState hnr
    rw [h'] at h
    simp only [Except.ok.injEq, Prod.mk.injEq] at h
    obtain ⟨h1, h2⟩ := h
    subst h1
    refine ⟨h2.symm, hmf, ?_, ?_⟩
    · intro hna
      rw [ham hna]
      rfl
    · intro hnc
      rw [hcat hnc]
      rfl

/-- C8 witness: a stream of one AMC line, one category line and one blank
line has zero data lines, does not error, and leaves the fund mapping
empty. -/
theorem zero_data_lines_amended_witness :
    parseLines initState [lineA, lineC, " \n"] ≠ .error "boom" ∧
    ([] : List NavRecord) = [] ∧ stateAC.mutual_funds = [] :=
  ⟨zero_data_lines_amended.1 [lineA, lineC, " \n"] (by decide) "boom",
   (zero_data_lines_amended.2 [lineA, lineC, " \n"] stateAC [] (by decide) rfl).1,
   (zero_data_lines_amended.2 [lineA, lineC, " \n"] stateAC [] (by decide) rfl).2.1⟩

/-- C10: the deduplication invariant — AMC ids are, in insertion order,
exactly the contiguous counter values `1..amc_id_seq`, the counter equals the
mapping's size, every stored `Amc` carries its key as its name,
symmetrically for categories, and fund codes are duplicate-free — holds in
the initial state, is preserved by every parser step, and therefore holds
after any successfully parsed prefix; `idRange n` is the contiguous set
`\x7b1, ..., n\x7d` without duplicates. -/
theorem parser_id_invariant :
    GoodState initState ∧
    (∀ (s : ParserState) (line : String) (s' : ParserState) (out : Option NavRecord),
      GoodState s → parseStep s line = .ok (s', out) → GoodState s') ∧
    (∀ (lines : List String) (s : ParserState) (recs : List NavRecord),
      parseLines initState lines = .ok (s, recs) → GoodState s) ∧
    (∀ n i : Nat, i ∈ idRange n ↔ 1 ≤ i ∧ i ≤ n) ∧
    (∀ n : Nat, (idRange n).Nodup) :=
  ⟨goodState_initState,
   fun s line s' out hg h => parseStep_goodState s line s' out h hg,
   fun lines s recs h => parseLines_goodState lines initState s recs goodState_initState h,
   idRange_mem, idRange_nodup⟩

/-- C10 witness: the state reached after an AMC line and a category line
satisfies the invariant. -/
theorem parser_id_invariant_witness : GoodState stateAC :=
  parser_id_invariant.2.2.1 [lineA, lineC] stateAC [] rfl

theorem isDigitC_facts (c : Char) (h : isDigitC c = true) :
    isPySpace c = false ∧ c ≠ '+' ∧ c ≠ '-' ∧ c ≠ '_' ∧ c ≠ ',' ∧ c ≠ '.' := by
  simp only [isDigitC, Bool.and_eq_true, decide_eq_true_eq] at h
  obtain ⟨h1, h2⟩ := h
  refine ⟨?_, ?_, ?_, ?_, ?_, ?_⟩
  · simp only [isPySpace, Bool.or_eq_false_iff, decide_eq_false_iff_not]
    omega
  · rintro rfl; revert h1; decide
  · rintro rfl; revert h1; decide
  · rintro rfl; revert h2; decide
  · rintro rfl; revert h1; decide
  · rintro rfl; revert h1; decide

theorem dropWhile_all_false (p : Char → Bool) (cs : List Char)
    (h : ∀ c ∈ cs, p c = false) : cs.dropWhile p = cs := by
  cases cs with
  | nil => rfl
  | cons c t => simp [List.dropWhile_cons, h c (List.mem_cons_self c t)]

theorem pyStrip_all_nonspace (cs : List Char) (h : ∀ c ∈ cs, isPySpace c = false) :
    pyStrip cs = cs := by
  unfold pyStrip
  rw [dropWhile_all_false _ _ h]
  rw [dropWhile_all_false _ _ (fun c hc => h c (List.mem_reverse.mp hc))]
  exact List.reverse_reverse cs

theorem pyDigitTail_all_digits (cs : List Char) (h : ∀ c ∈ cs, isDigitC c = true) :
    pyDigitTail cs = true := by
  induction cs with
  | nil => rfl
  | cons c t ih =>
    have hc := h c (List.mem_cons_self c t)
    have hne : c ≠ '_' := (isDigitC_facts c hc).2.2.2.1
    rw [pyDigitTail.eq_def]
    dsimp only
    rw [if_neg hne, hc, ih (fun x hx => h x (List.mem_cons_of_mem c hx))]
    rfl

theorem pyIntOfChars_all_digits (cs : List Char) (hne : cs ≠ [])
    (h : ∀ c ∈ cs, isDigitC c = true) : pyIntOfChars cs = some ((digitsVal cs : Int)) := by
  have hs : pyStrip cs = cs :=
    pyStrip_all_nonspace cs (fun c hc => (isDigitC_facts c (h c hc)).1)
  cases cs with
  | nil => exact absurd rfl hne
  | cons c t =>
    have hc := h c (List.mem_cons_self c t)
    have facts := isDigitC_facts c hc
    have hfilter : (c :: t).filter (fun x => x ≠ '_') = c :: t :=
      List.filter_eq_self.mpr
        (fun x hx => by simpa using (isDigitC_facts x (h x hx)).2.2.2.1)
    have htail : pyDigitTail t = true :=
      pyDigitTail_all_digits t (fun x hx => h x (List.mem_cons_of_mem c hx))
    simp only [pyIntOfChars, hs]
    rw [if_neg (by simp [facts.2.1, facts.2.2.1])]
    rw [hc, htail, hfilter]
    simp

theorem digitsVal_foldl_init (b : List Char) :
    ∀ i : Nat, b.foldl (fun a c => 10 * a + (c.toNat - 48)) i =
      i * 10 ^ b.length + b.foldl (fun a c => 10 * a + (c.toNat - 48)) 0 := by
  induction b with
  | nil => intro i; simp
  | cons c t ih =>
    intro i
    simp only [List.foldl_cons, List.length_cons]
    rw [ih (10 * i + (c.toNat - 48)), ih (10 * 0 + (c.toNat - 48))]
    ring

theorem digitsVal_append (a b : List Char) :
    digitsVal (a ++ b) = digitsVal a * 10 ^ b.length + digitsVal b := by
  unfold digitsVal
  rw [List.foldl_append]
  exact digitsVal_foldl_init b (digitsVal a)

theorem digitsVal_replicate_zero (n : Nat) : digitsVal (List.replicate n '0') = 0 := by
  induction n with
  | zero => rfl
  | succ m ih =>
    show digitsVal ('0' :: List.replicate m '0') = 0
    unfold digitsVal at ih ⊢
    simpa using ih

theorem pyDigitTail_chars (l : List Char) (h : pyDigitTail l = true) :
    ∀ c ∈ l, isDigitC c = true ∨ c = '_' := by
  induction l with
  | nil => intro c hc; cases hc
  | cons c t ih =>
    intro x hx
    rw [pyDigitTail.eq_def] at h
    dsimp only at h
    by_cases hc : c = '_'
    · rw [if_pos hc] at h
      cases t with
      | nil => cases h
      | cons d r =>
        simp only [Bool.and_eq_true] at h
        obtain ⟨hd, hr⟩ := h
        have hdt : pyDigitTail (d :: r) = true := by
          have hdne : d ≠ '_' := (isDigitC_facts d hd).2.2.2.1
          rw [pyDigitTail.eq_def]
          dsimp only
          rw [if_neg hdne, hd, hr]
          rfl
        rcases List.mem_cons.mp hx with hx1 | hx2
        · subst hx1; right; exact hc
        · exact ih hdt x hx2
    · rw [if_neg hc] at h
      simp only [Bool.and_eq_true] at h
      obtain ⟨hd, hr⟩ := h
      rcases List.mem_cons.mp hx with hx1 | hx2
      · subst hx1; left; exact hd
      · exact ih hr x hx2

theorem mem_pyStrip (cs : List Char) (c : Char) (hc : c ∈ cs) :
    c ∈ pyStrip cs ∨ isPySpace c = true := by
  have hsplit := List.takeWhile_append_dropWhile (p := isPySpace) (l := cs)
  rw [← hsplit] at hc
  rcases List.mem_append.mp hc with h1 | h2
  · exact Or.inr (List.mem_takeWhile_imp h1)
  · have h2r : c ∈ (cs.dropWhile isPySpace).reverse := List.mem_reverse.mpr h2
    have hsplit2 := List.takeWhile_append_dropWhile (p := isPySpace)
      (l := (cs.dropWhile isPySpace).reverse)
    rw [← hsplit2] at h2r
    rcases List.mem_append.mp h2r with h3 | h4
    · exact Or.inr (List.mem_takeWhile_imp h3)
    · left
      unfold pyStrip
      exact List.mem_reverse.mpr h4

theorem pyIntOfChars_chars (cs : List Char) (n : Int) (h : pyIntOfChars cs = some n) :
    ∀ c ∈ cs, isDigitC c = true ∨ c = '+' ∨ c = '-' ∨ c = '_' ∨ isPySpace c = true := by
  intro c hc
  rcases mem_pyStrip cs c hc with hmem | hspace
  · cases hstrip : pyStrip cs with
    | nil => rw [hstrip] at hmem; cases hmem
    | cons c₀ rest =>
      rw [hstrip] at hmem
      simp only [pyIntOfChars, hstrip] at h
      by_cases hsign : (decide (c₀ = '+') || decide (c₀ = '-')) = true
      · rw [if_pos hsign] at h
        cases rest with
        | nil => cases h
        | cons d rest' =>
          dsimp only at h
          by_cases hbody : (isDigitC d && pyDigitTail rest') = true
          · simp only [Bool.and_eq_true] at hbody
            rcases List.mem_cons.mp hmem with h1 | h2
            · subst h1
              simp only [decide_eq_true_eq, Bool.or_eq_true] at hsign
              rcases hsign with hs | hs
              · exact Or.inr (Or.inl hs)
              · exact Or.inr (Or.inr (Or.inl hs))
            · rcases List.mem_cons.mp h2 with h3 | h4
              · subst h3; exact Or.inl hbody.1
              · rcases pyDigitTail_chars rest' hbody.2 c h4 with h5 | h5
                · exact Or.inl h5
                · exact Or.inr (Or.inr (Or.inr (Or.inl h5)))
          · rw [if_neg hbody] at h
            cases h
      · rw [if_neg hsign] at h
        by_cases hbody : (isDigitC c₀ && pyDigitTail rest) = true
        · simp only [Bool.and_eq_true] at hbody
          rcases List.mem_cons.mp hmem with h1 | h2
          · subst h1; exact Or.inl hbody.1
          · rcases pyDigitTail_chars rest hbody.2 c h2 with h5 | h5
            · exact Or.inl h5
            · exact Or.inr (Or.inr (Or.inr (Or.inl h5)))
        · rw [if_neg hbody] at h
          cases h
  · exact Or.inr (Or.inr (Or.inr (Or.inr hspace)))

theorem filter_ne_of_digits (ch : Char) (l : List Char) (h : ∀ c ∈ l, isDigitC c = true)
    (hch : isDigitC ch = false) : l.filter (fun c => c ≠ ch) = l := by
  apply List.filter_eq_self.mpr
  intro a ha
  have hd := h a ha
  simp only [ne_eq, decide_eq_true_eq]
  intro hac
  rw [hac] at hd
  rw [hd] at hch
  cases hch

theorem findIdx?_dot_none (A : List Char) (hA : ∀ c ∈ A, c ≠ '.') :
    A.findIdx? (fun c => c = '.') = none := by
  induction A with
  | nil => rfl
  | cons c t ih =>
    rw [List.findIdx?_cons]
    rw [if_neg (by simp [hA c (List.mem_cons_self c t)])]
    rw [List.findIdx?_succ, ih (fun x hx => hA x (List.mem_cons_of_mem c hx))]
    rfl

theorem findIdx?_dot_append (A B : List Char) (hA : ∀ c ∈ A, c ≠ '.') :
    (A ++ '.' :: B).findIdx? (fun c => c = '.') = some A.length := by
  induction A with
  | nil => simp [List.findIdx?_cons]
  | cons c t ih =>
    simp only [List.cons_append, List.findIdx?_cons]
    rw [if_neg (by simp [hA c (List.mem_cons_self c t)])]
    rw [List.findIdx?_succ, ih (fun x hx => hA x (List.mem_cons_of_mem c hx))]
    simp

theorem parseCommaGroups_spec_aux (n : Nat) : ∀ (r : List Char), r.length ≤ n →
    ∀ ds fin, parseCommaGroups r = some (ds, fin) →
      (∀ c ∈ ds, isDigitC c = true) ∧
      r.filter (fun c => c ≠ ',') = ds ++ fin.filter (fun c => c ≠ ',') := by
  induction n with
  | zero =>
    intro r hr ds fin h
    have hnil : r = [] := List.length_eq_zero.mp (Nat.le_zero.mp hr)
    subst hnil
    simp only [parseCommaGroups, Option.some.injEq, Prod.mk.injEq] at h
    obtain ⟨h1, h2⟩ := h
    subst h1
    subst h2
    exact ⟨fun c hc => absurd hc (List.not_mem_nil c), by simp⟩
  | succ m ih =>
    intro r hr ds fin h
    cases r with
    | nil =>
      simp only [parseCommaGroups, Option.some.injEq, Prod.mk.injEq] at h
      obtain ⟨h1, h2⟩ := h
      subst h1
      subst h2
      exact ⟨fun c hc => absurd hc (List.not_mem_nil c), by simp⟩
    | cons c rest =>
      rw [parseCommaGroups.eq_def] at h
      dsimp only at h
      by_cases hc : c = ','
      · rw [if_pos hc] at h
        subst hc
        cases rest with
        | nil => cases h
        | cons d1 r1 =>
          cases r1 with
          | nil => cases h
          | cons d2 r2 =>
            cases r2 with
            | nil => cases h
            | cons d3 rest' =>
              dsimp only at h
              by_cases hcond :
                  (isDigitC d1 && isDigitC d2 && isDigitC d3 && !headIsDigit rest') = true
              · rw [if_pos hcond] at h
                cases hrec : parseCommaGroups rest' with
                | none => rw [hrec] at h; cases h
                | some p =>
                  obtain ⟨more, fin'⟩ := p
                  rw [hrec] at h
                  dsimp only at h
                  simp only [Option.some.injEq, Prod.mk.injEq] at h
                  obtain ⟨h1, h2⟩ := h
                  subst h2
                  subst h1
                  have hlen : rest'.length ≤ m := by
                    simp only [List.length_cons] at hr
                    omega
                  obtain ⟨ihd, ihf⟩ := ih rest' hlen more fin' hrec
                  simp only [Bool.and_eq_true] at hcond
                  obtain ⟨⟨⟨h1d, h2d⟩, h3d⟩, _⟩ := hcond
                  constructor
                  · intro x hx
                    simp only [List.mem_cons] at hx
                    rcases hx with rfl | rfl | rfl | hx
                    · exact h1d
                    · exact h2d
                    · exact h3d
                    · exact ihd x hx
                  · have c1 : d1 ≠ ',' := (isDigitC_facts d1 h1d).2.2.2.2.1
                    have c2 : d2 ≠ ',' := (isDigitC_facts d2 h2d).2.2.2.2.1
                    have c3 : d3 ≠ ',' := (isDigitC_facts d3 h3d).2.2.2.2.1
                    simp [c1, c2, c3]
                    simpa using ihf
              · rw [if_neg hcond] at h
                cases h
      · rw [if_neg hc] at h
        simp only [Option.some.injEq, Prod.mk.injEq] at h
        obtain ⟨h1, h2⟩ := h
        subst h1
        subst h2
        exact ⟨fun x hx => absurd hx (List.not_mem_nil x), by simp⟩

theorem parseCommaGroups_spec (r ds fin : List Char) (h : parseCommaGroups r = some (ds, fin)) :
    (∀ c ∈ ds, isDigitC c = true) ∧
    r.filter (fun c => c ≠ ',') = ds ++ fin.filter (fun c => c ≠ ',') :=
  parseCommaGroups_spec_aux r.length r le_rfl ds fin h

theorem mungePadded_moneyShape (s : String) (d f : List Char)
    (hm : moneyShape s = some (d, f)) (hf : f.length ≤ 4) :
    (∀ c ∈ d, isDigitC c = true) ∧ (∀ c ∈ f, isDigitC c = true) ∧ d ≠ [] ∧
    mungePadded s = (d ++ f) ++ List.replicate (4 - f.length) '0' := by
  simp only [moneyShape] at hm
  by_cases hcond : 1 ≤ (s.toList.takeWhile isDigitC).length ∧
      (s.toList.takeWhile isDigitC).length ≤ 3
  swap
  · rw [if_neg hcond] at hm
    cases hm
  rw [if_pos hcond] at hm
  cases hpcg : parseCommaGroups (s.toList.dropWhile isDigitC) with
  | none => rw [hpcg] at hm; cases hm
  | some p =>
    obtain ⟨dmore, r2⟩ := p
    rw [hpcg] at hm
    dsimp only at hm
    obtain ⟨hdm, hfilt⟩ := parseCommaGroups_spec _ _ _ hpcg
    have hAdig : ∀ c ∈ s.toList.takeWhile isDigitC, isDigitC c = true :=
      fun c hc => List.mem_takeWhile_imp hc
    have hsl : s.toList = s.toList.takeWhile isDigitC ++ s.toList.dropWhile isDigitC :=
      (List.takeWhile_append_dropWhile (p := isDigitC) (l := s.toList)).symm
    have hcomma : s.toList.filter (fun c => c ≠ ',') =
        (s.toList.takeWhile isDigitC ++ dmore) ++ r2.filter (fun c => c ≠ ',') := by
      conv_lhs => rw [hsl]
      rw [List.filter_append, hfilt,
        filter_ne_of_digits ',' _ hAdig (by decide), List.append_assoc]
    cases r2 with
    | nil =>
      simp only [Option.some.injEq, Prod.mk.injEq] at hm
      obtain ⟨hd_eq, hf_eq⟩ := hm
      subst hd_eq
      subst hf_eq
      have hddig : ∀ c ∈ s.toList.takeWhile isDigitC ++ dmore, isDigitC c = true := by
        intro c hc
        rcases List.mem_append.mp hc with h1 | h1
        · exact hAdig c h1
        · exact hdm c h1
      have hdne : s.toList.takeWhile isDigitC ++ dmore ≠ [] := by
        intro hnil
        have := congrArg List.length hnil
        simp only [List.length_append, List.length_nil] at this
        omega
      refine ⟨hddig, fun c hc => absurd hc (List.not_mem_nil c), hdne, ?_⟩
      have h1 : s.toList.filter (fun c => c ≠ ',') = s.toList.takeWhile isDigitC ++ dmore := by
        rw [hcomma]
        simp
      simp only [mungePadded, h1]
      rw [findIdx?_dot_none _ (fun c hc => (isDigitC_facts c (hddig c hc)).2.2.2.2.2)]
      dsimp only
      rw [filter_ne_of_digits '.' _ hddig (by decide)]
      rw [if_pos (by norm_num : (4 : Int) ≠ 0)]
      simp
    | cons c2 rest =>
      dsimp only at hm
      by_cases hdot : c2 = '.'
      swap
      · rw [if_neg hdot] at hm
        cases hm
      subst hdot
      rw [if_pos rfl] at hm
      by_cases hfrac : 1 ≤ (rest.takeWhile isDigitC).length ∧ rest.dropWhile isDigitC = []
      swap
      · rw [if_neg hfrac] at hm
        cases hm
      rw [if_pos hfrac] at hm
      simp only [Option.some.injEq, Prod.mk.injEq] at hm
      obtain ⟨hd_eq, hf_eq⟩ := hm
      subst hd_eq
      have hrest : rest = f := by
        rw [← hf_eq]
        conv_lhs => rw [← List.takeWhile_append_dropWhile (p := isDigitC) (l := rest)]
        rw [hfrac.2]
        simp
      subst hrest
      have hfdig : ∀ c ∈ rest, isDigitC c = true := by
        rw [← hf_eq]
        exact fun c hc => List.mem_takeWhile_imp hc
      have hddig : ∀ c ∈ s.toList.takeWhile isDigitC ++ dmore, isDigitC c = true := by
        intro c hc
        rcases List.mem_append.mp hc with h1 | h1
        · exact hAdig c h1
        · exact hdm c h1
      have hdne : s.toList.takeWhile isDigitC ++ dmore ≠ [] := by
        intro hnil
        have := congrArg List.length hnil
        simp only [List.length_append, List.length_nil] at this
        omega
      refine ⟨hddig, hfdig, hdne, ?_⟩
      have h1 : s.toList.filter (fun c => c ≠ ',') =
          (s.toList.takeWhile isDigitC ++ dmore) ++ '.' :: rest := by
        rw [hcomma]
        congr 1
        rw [List.filter_cons]
        rw [if_pos (by decide)]
        rw [filter_ne_of_digits ',' _ hfdig (by decide)]
      simp only [mungePadded, h1]
      rw [findIdx?_dot_append _ _ (fun c hc => (isDigitC_facts c (hddig c hc)).2.2.2.2.2)]
      dsimp only
      have hds : ((s.toList.takeWhile isDigitC ++ dmore) ++ '.' :: rest).filter
          (fun c => c ≠ '.') = (s.toList.takeWhile isDigitC ++ dmore) ++ rest := by
        rw [List.filter_append, filter_ne_of_digits '.' _ hddig (by decide), List.filter_cons]
        rw [if_neg (by decide)]
        rw [filter_ne_of_digits '.' _ hfdig (by decide)]
      rw [hds]
      have hzlen : (4 : Int) - (((s.toList.takeWhile isDigitC ++ dmore) ++ rest).length : Int) +
          ((s.toList.takeWhile isDigitC ++ dmore).length : Int) =
          ((4 - rest.length : Nat) : Int) := by
        have hflen : rest.length ≤ 4 := hf
        simp only [List.length_append]
        push_cast
        omega
      rw [hzlen]
      by_cases hz : ((4 - rest.length : Nat) : Int) ≠ 0
      · rw [if_pos hz]
        simp [Int.toNat_natCast]
      · rw [if_neg hz]
        push_neg at hz
        have : 4 - rest.length = 0 := by exact_mod_cast hz
        rw [this]
        simp

theorem to_integer_moneyShape (s : String) (d f : List Char)
    (hm : moneyShape s = some (d, f)) (hf : f.length ≤ 4) :
    to_integer s false =
      .ok (some ((digitsVal d * 10 ^ 4 + digitsVal f * 10 ^ (4 - f.length) : Nat) : Int)) := by
  obtain ⟨hd, hfd, hdne, hmp⟩ := mungePadded_moneyShape s d f hm hf
  have hall : ∀ c ∈ (d ++ f) ++ List.replicate (4 - f.length) '0', isDigitC c = true := by
    intro c hc
    rcases List.mem_append.mp hc with h1 | h1
    · rcases List.mem_append.mp h1 with h2 | h2
      · exact hd c h2
      · exact hfd c h2
    · rw [List.eq_of_mem_replicate h1]
      decide
  have hne2 : (d ++ f) ++ List.replicate (4 - f.length) '0' ≠ [] := by
    intro hnil
    apply hdne
    have := congrArg List.length hnil
    simp only [List.length_append, List.length_nil, List.length_replicate] at this
    exact List.length_eq_zero.mp (by omega)
  have hpy := pyIntOfChars_all_digits _ hne2 hall
  have hval : digitsVal ((d ++ f) ++ List.replicate (4 - f.length) '0') =
      digitsVal d * 10 ^ 4 + digitsVal f * 10 ^ (4 - f.length) := by
    rw [digitsVal_append, digitsVal_append, digitsVal_replicate_zero, List.length_replicate]
    have h4 : f.length + (4 - f.length) = 4 := by omega
    calc (digitsVal d * 10 ^ f.length + digitsVal f) * 10 ^ (4 - f.length) + 0
        = digitsVal d * (10 ^ f.length * 10 ^ (4 - f.length)) +
            digitsVal f * 10 ^ (4 - f.length) := by ring
      _ = digitsVal d * 10 ^ 4 + digitsVal f * 10 ^ (4 - f.length) := by
          rw [← pow_add, h4]
  simp only [to_integer, hmp, hpy]
  rw [hval]

/-- C2 counterexample: `"0.12345"` matches the spec's decimal pattern, but
decoding it yields `12345` — the negative padding count is a silent no-op, so
the result is the value scaled by `10^5` rather than `10^4`, and dividing by
`10^4` reproduces neither the exact value `0.12345` nor its truncation to
four decimals. -/
theorem money_roundtrip_counterexample :
    moneyShape "0.12345" = some (['0'], ['1', '2', '3', '4', '5']) ∧
    to_integer "0.12345" false = .ok (some 12345) ∧
    ¬ ((12345 : ℚ) / 10 ^ 4 =
        (digitsVal ['0'] : ℚ) + (digitsVal ['1', '2', '3', '4', '5'] : ℚ) / 10 ^ 5) ∧
    ¬ ((12345 : ℚ) / 10 ^ 4 = 1234 / 10 ^ 4) := by
  refine ⟨by decide, rfl, ?_, ?_⟩
  · have h1 : digitsVal ['0'] = 0 := rfl
    have h2 : digitsVal ['1', '2', '3', '4', '5'] = 12345 := rfl
    rw [h1, h2]
    push_cast
    norm_num
  · norm_num

/-- C2 (amended): for every decimal string matching
`\d\x7b1,3\x7d(,\d\x7b3\x7d)*(\.\d+)?` whose fractional part has at most
four digits, the decoder returns the numeric value scaled by `10^4` exactly,
so dividing by `10^4` reproduces the value; with five or more fractional
digits the scale is wrong (see the counterexample). -/
theorem money_roundtrip_scaled (s : String) (d f : List Char)
    (hm : moneyShape s = some (d, f)) (hf : f.length ≤ 4) :
    to_integer s false =
      .ok (some ((digitsVal d * 10 ^ 4 + digitsVal f * 10 ^ (4 - f.length) : Nat) : Int)) ∧
    ((digitsVal d * 10 ^ 4 + digitsVal f * 10 ^ (4 - f.length) : Nat) : ℚ) / 10 ^ 4 =
      (digitsVal d : ℚ) + (digitsVal f : ℚ) / 10 ^ f.length := by
  refine ⟨to_integer_moneyShape s d f hm hf, ?_⟩
  have h10 : (10 : ℚ) ^ f.length ≠ 0 := pow_ne_zero _ (by norm_num)
  have h4 : (10 : ℚ) ^ (4 - f.length) * 10 ^ f.length = 10 ^ 4 := by
    rw [← pow_add]
    congr 1
    omega
  have hcast : ((digitsVal d * 10 ^ 4 + digitsVal f * 10 ^ (4 - f.length) : Nat) : ℚ) =
      (digitsVal d : ℚ) * 10 ^ 4 + (digitsVal f : ℚ) * 10 ^ (4 - f.length) := by
    push_cast
    ring
  rw [hcast]
  have expand : (digitsVal d : ℚ) + (digitsVal f : ℚ) / 10 ^ f.length =
      ((digitsVal d : ℚ) * 10 ^ f.length + (digitsVal f : ℚ)) / 10 ^ f.length := by
    field_simp
  rw [expand, div_eq_div_iff (by norm_num : ((10 : ℚ) ^ 4) ≠ 0) h10]
  rw [add_mul, mul_assoc ((digitsVal f : ℚ)), h4]
  ring

/-- C2 witness: `"1,234.56"` matches the pattern with two fractional digits;
decoding gives `12345600`, and `12345600 / 10^4` is exactly `1234.56`. -/
theorem money_roundtrip_scaled_witness :
    to_integer "1,234.56" false =
      .ok (some ((digitsVal ['1', '2', '3', '4'] * 10 ^ 4 +
        digitsVal ['5', '6'] * 10 ^ (4 - (['5', '6'] : List Char).length) : Nat) : Int)) ∧
    ((digitsVal ['1', '2', '3', '4'] * 10 ^ 4 +
        digitsVal ['5', '6'] * 10 ^ (4 - (['5', '6'] : List Char).length) : Nat) : ℚ) / 10 ^ 4 =
      (digitsVal ['1', '2', '3', '4'] : ℚ) +
        (digitsVal ['5', '6'] : ℚ) / 10 ^ (['5', '6'] : List Char).length :=
  money_roundtrip_scaled "1,234.56" ['1', '2', '3', '4'] ['5', '6'] (by decide) (by decide)

/-- C3 counterexample: `"1.2.3"` is not a valid decimal number, yet the
decoder silently returns `12300` in both modes (all decimal points are
removed before parsing); `"-5"` is negative-looking, yet the decoder returns
`-50000` instead of failing. -/
theorem money_malformed_counterexample :
    isValidDecimalB "1.2.3" = false ∧
    to_integer "1.2.3" false = .ok (some 12300) ∧
    to_integer "1.2.3" true = .ok (some 12300) ∧
    isValidDecimalB "-5" = false ∧
    to_integer "-5" false = .ok (some (-50000)) ∧
    to_integer "-5" true = .ok (some (-50000)) :=
  ⟨by decide, rfl, rfl, by decide, rfl, rfl⟩

/-- C3 (amended): an input containing any character other than digits,
commas, periods, signs, underscores and whitespace fails cleanly — "no
value" in non-strict mode, a descriptive error naming the munged string in
strict mode — but malformed inputs built only from those characters can be
silently accepted (see the counterexample). -/
theorem money_decoder_fails_cleanly (s : String)
    (h : ∃ c ∈ s.toList, isMoneyLegalChar c = false) :
    to_integer s false = .ok none ∧
    to_integer s true = .error ("Cannot convert " ++ String.mk (mungePadded s) ++ " to long") := by
  obtain ⟨c, hc, hbad⟩ := h
  simp only [isMoneyLegalChar, Bool.or_eq_false_iff, decide_eq_false_iff_not] at hbad
  obtain ⟨⟨⟨⟨⟨⟨hdig, hcomma⟩, hdot⟩, hplus⟩, hminus⟩, hunder⟩, hspace⟩ := hbad
  have hmem : c ∈ mungePadded s := by
    simp only [mungePadded]
    have h1 : c ∈ s.toList.filter (fun x => x ≠ ',') :=
      List.mem_filter.mpr ⟨hc, by simpa using hcomma⟩
    have h2 : c ∈ (s.toList.filter (fun x => x ≠ ',')).filter (fun x => x ≠ '.') :=
      List.mem_filter.mpr ⟨h1, by simpa using hdot⟩
    split_ifs with hz
    · exact List.mem_append.mpr (Or.inl h2)
    · exact h2
  have hnone : pyIntOfChars (mungePadded s) = none := by
    cases hpy : pyIntOfChars (mungePadded s) with
    | none => rfl
    | some n =>
      rcases pyIntOfChars_chars (mungePadded s) n hpy c hmem with h1 | h1 | h1 | h1 | h1
      · rw [h1] at hdig; cases hdig
      · exact absurd h1 hplus
      · exact absurd h1 hminus
      · exact absurd h1 hunder
      · rw [h1] at hspace; cases hspace
  constructor
  · simp only [to_integer, hnone]
    rfl
  · simp only [to_integer, hnone]
    rfl

/-- C3 witness: `"N.A."` contains the illegal letters `N` and `A`, so it
yields "no value" in non-strict mode and a descriptive strict-mode error
naming the munged string `NA000`. -/
theorem money_decoder_fails_cleanly_witness :
    to_integer "N.A." false = .ok none ∧
    to_integer "N.A." true = .error ("Cannot convert " ++ String.mk (mungePadded "N.A.") ++ " to long") :=
  money_decoder_fails_cleanly "N.A." ⟨'N', by decide, by decide⟩

/-- C1 counterexample: the empty string does not yield "no value", nor an
error in strict mode — `to_integer` pads `""` to `"0000"` and returns `0`
in both modes, contradicting the claimed behaviour for `""`. -/
theorem to_integer_empty_string_counterexample :
    to_integer "" false = .ok (some 0) ∧ to_integer "" true = .ok (some 0) := by
  constructor <;> rfl

/-- C1 (amended): the worked examples of the money decoder. `"10.5"` decodes
to `105000`, `"1,234.56"` to `12345600`, `"100"` to `1000000`; `"N.A."`
yields "no value" (`none`) in non-strict mode and a descriptive error naming
the munged string in strict mode; but `""` decodes to `0` in both modes. -/
theorem to_integer_worked_examples :
    to_integer "10.5" false = .ok (some 105000) ∧
    to_integer "1,234.56" false = .ok (some 12345600) ∧
    to_integer "100" false = .ok (some 1000000) ∧
    to_integer "10.5" true = .ok (some 105000) ∧
    to_integer "1,234.56" true = .ok (some 12345600) ∧
    to_integer "100" true = .ok (some 1000000) ∧
    to_integer "N.A." false = .ok none ∧
    to_integer "N.A." true = .error "Cannot convert NA000 to long" ∧
    to_integer "" false = .ok (some 0) ∧
    to_integer "" true = .ok (some 0) := by
  refine ⟨rfl, rfl, rfl, rfl, rfl, rfl, rfl, rfl, rfl, rfl⟩
